import Mathlib

/-!
Noise applet (`software/src/applets/Noise.h`) and clock divider applet
(`software/src/applets/ClockDivider.h`).

A shallow embedding of the pseudo-random generators, the target-seeking
`FilteredNoise` generator, the buffer filters, the controller and the
encoder/button handlers of the `Noise` applet, and of the division table of
the `ClockDivider` applet, followed by theorems about them.

Conventions of the embedding:
* `uint8_t`, `uint32_t` and `uint64_t` values are natural numbers; every
  operation that can leave the range of its type is followed by an explicit
  reduction modulo `2^8`, `2^32` or `2^64`.
* `int` / `int32_t` values are integers; signed overflow is not modelled.
* A member function that mutates its object returns the new object together
  with the returned value.
* An array is a function on slot numbers; an operation that would access a
  slot outside the array, or divide by zero, returns `none`.
* `float` and `double` arithmetic is not interpreted: the operations the source
  uses are taken from a `FloatOps` record.  The record `ratOps` interprets them
  exactly, over the rationals, for running the definitions.
-/

namespace NoiseApplet

/-! ## Machine integers -/

/-- Conversion of an integer to `uint8_t`. -/
def toU8 (i : Int) : Nat := (i % 256).toNat

/-- Conversion of an integer to `uint32_t`. -/
def toU32 (i : Int) : Nat := (i % 4294967296).toNat

/-- The constant `__UINT32_MAX__`. -/
def UINT32_MAX : Nat := 4294967295

/-- The constant `__UINT64_MAX__`. -/
def UINT64_MAX : Nat := 18446744073709551615

/-- The constant `__UINT8_MAX__`. -/
def UINT8_MAX : Nat := 255

/-! ## Pseudo-random generators -/

/-- State of `struct LFSRNoise`: the `uint32_t seed` register. -/
structure LFSRNoise where
  seed : Nat

/-- `LFSRNoise::next()`. -/
def LFSRNoise.next (g : LFSRNoise) : LFSRNoise × Nat :=
  let seed := if g.seed &&& 1 ≠ 0 then (g.seed >>> 1) ^^^ 0x80000062 else g.seed >>> 1
  ({ seed := seed }, seed)

/-- `LFSRNoise::max()`. -/
def LFSRNoise.max : Nat := UINT32_MAX

/-- `LFSRNoise::bits()`. -/
def LFSRNoise.bits : Nat := 32

/-- State of `struct LCGNoise`: the `uint32_t seed` register. -/
structure LCGNoise where
  seed : Nat

/-- `LCGNoise::next()`: `seed = seed * 196314165 + 907633515` in `uint32_t`. -/
def LCGNoise.next (g : LCGNoise) : LCGNoise × Nat :=
  let seed := ((g.seed * 196314165) % 4294967296 + 907633515) % 4294967296
  ({ seed := seed }, seed)

/-- `LCGNoise::max()`. -/
def LCGNoise.max : Nat := 4294967295

/-- `LCGNoise::bits()`. -/
def LCGNoise.bits : Nat := 32

/-- State of `struct XorShift32Noise`.  The member is declared
`uint64_t seed = 161803398;`, so the register is 64 bits wide. -/
structure XorShift32Noise where
  seed : Nat

/-- `XorShift32Noise::XorShift32Noise(uint32_t seed)`. -/
def XorShift32Noise.mk32 (seed : Nat) : XorShift32Noise := { seed := seed % 4294967296 }

/-- `XorShift32Noise::XorShift32Noise()`: the default member initialiser. -/
def XorShift32Noise.default : XorShift32Noise := { seed := 161803398 }

/-- `XorShift32Noise::operator()()`: three shift-xor steps on the `uint64_t`
register, the result converted to the `uint32_t` return type. -/
def XorShift32Noise.call (g : XorShift32Noise) : XorShift32Noise × Nat :=
  let s1 := g.seed ^^^ ((g.seed <<< 13) % 18446744073709551616)
  let s2 := s1 ^^^ (s1 >>> 17)
  let s3 := s2 ^^^ ((s2 <<< 5) % 18446744073709551616)
  ({ seed := s3 }, s3 % 4294967296)

/-- `XorShift32Noise::max()`. -/
def XorShift32Noise.max : Nat := UINT32_MAX

/-- `XorShift32Noise::bits()`. -/
def XorShift32Noise.bits : Nat := 32

/-- State of `struct XorShift64Noise`: the `uint64_t seed` register. -/
structure XorShift64Noise where
  seed : Nat

/-- `XorShift64Noise::operator()()`. -/
def XorShift64Noise.call (g : XorShift64Noise) : XorShift64Noise × Nat :=
  let s1 := g.seed ^^^ ((g.seed <<< 13) % 18446744073709551616)
  let s2 := s1 ^^^ (s1 >>> 7)
  let s3 := s2 ^^^ ((s2 <<< 17) % 18446744073709551616)
  ({ seed := s3 }, s3)

/-- `XorShift64Noise::max()`. -/
def XorShift64Noise.max : Nat := UINT64_MAX

/-- `XorShift64Noise::bits()`. -/
def XorShift64Noise.bits : Nat := 64

/-- The classic 32-bit xorshift step as the specification words it:
`x ^= x << 13; x ^= x >> 17; x ^= x << 5`, every step truncated to 32 bits. -/
def specXorShift32 (x : Nat) : Nat :=
  let x1 := (x ^^^ (x <<< 13)) % 4294967296
  let x2 := (x1 ^^^ (x1 >>> 17)) % 4294967296
  (x2 ^^^ (x2 <<< 5)) % 4294967296

/-- The `n`-th value (counting from 1) returned by a generator, given its
advance function. -/
def nthValue {G : Type} (adv : G → G × Nat) (g : G) (n : Nat) : Nat :=
  (adv ((fun x => (adv x).1)^[n - 1] g)).2

/-- The generator after `n` advances. -/
def advances {G : Type} (adv : G → G × Nat) (g : G) (n : Nat) : G :=
  (fun x => (adv x).1)^[n] g

/-! ## The target-seeking generator -/

/-- State of `struct FilteredNoise`: `uint32_t slope`, the `LCGNoise random`
sub-generator, `uint32_t value`, `uint32_t target` and `int32_t direction`. -/
structure FilteredNoise where
  slope : Nat
  random : LCGNoise
  value : Nat
  target : Nat
  direction : Int

/-- `FilteredNoise::max()`. -/
def FilteredNoise.max : Nat := UINT32_MAX

/-- `FilteredNoise::bits()`. -/
def FilteredNoise.bits : Nat := 32

/-- `FilteredNoise::setCutoff`: `slope = frequency` (an `int32_t` stored in a
`uint32_t`); the sample rate is not used. -/
def FilteredNoise.setCutoff (s : FilteredNoise) (frequency : Int) (_sampleRate : Nat) :
    FilteredNoise :=
  { s with slope := toU32 frequency }

/-- First statement of `FilteredNoise::operator()()`: the value after the
clamp-or-apply-slope step.  In `value += direction * slope` the `int32_t`
direction is converted to `uint32_t` and the arithmetic is modulo `2^32`. -/
def FilteredNoise.slopeAdjusted (s : FilteredNoise) : Nat :=
  if 0 < s.direction ∧ s.value > FilteredNoise.max - s.slope then
    FilteredNoise.max
  else if s.direction < 0 ∧ s.value < s.slope then
    0
  else
    (s.value + (toU32 s.direction * s.slope) % 4294967296) % 4294967296

/-- `FilteredNoise::operator()()`. -/
def FilteredNoise.call (s : FilteredNoise) : FilteredNoise × Nat :=
  let value := s.slopeAdjusted
  if (0 < s.direction ∧ value ≥ s.target) ∨ (s.direction < 0 ∧ value ≤ s.target) then
    let direction := -s.direction
    let drawn := s.random.next
    let rng := drawn.2
    let target :=
      if 0 < direction then (rng >>> 1) ||| (FilteredNoise.max / 2 + 1) else rng >>> 1
    ({ s with value := s.target, direction := direction, random := drawn.1, target := target },
      s.target)
  else
    ({ s with value := value }, value)

/-! ## Buffer filters -/

/-- State of `struct AverageBufferFilter`: `uint8_t max_size`, `uint8_t size`,
`uint8_t index` and `uint32_t buffer[128]`.  The array is a function on slot
numbers; only slots below 128 exist, and the operations below check every
access against that capacity. -/
structure AverageBufferFilter where
  max_size : Nat
  size : Nat
  index : Nat
  buffer : Nat → Nat

/-- `AverageBufferFilter::AverageBufferFilter(uint8_t size = 64)`:
`size = std::max(1, std::min(max_size, size))`.  The constructor initialises
neither `index` nor `buffer`, which are therefore arguments here. -/
def AverageBufferFilter.init (size : Nat) (index : Nat) (buffer : Nat → Nat) :
    AverageBufferFilter :=
  { max_size := 128, size := Nat.max 1 (Nat.min 128 size), index := index, buffer := buffer }

/-- `AverageBufferFilter::buffer_average()`: the loop
`for (i = 0; i < size; i++) average += buffer[i] / size;` on a `uint32_t`
accumulator. -/
def AverageBufferFilter.buffer_average (s : AverageBufferFilter) : Nat :=
  (List.range s.size).foldl
    (fun average i => (average + s.buffer i / s.size) % 4294967296) 0

/-- `AverageBufferFilter::operator()(uint32_t value)`.  The result is `none`
when the call has no defined behaviour: a write outside the 128 slots, a
modulo by a zero `size`, or a window reaching past the 128 slots. -/
def AverageBufferFilter.call (s : AverageBufferFilter) (value : Nat) :
    Option (AverageBufferFilter × Nat) :=
  if s.index < 128 ∧ 0 < s.size ∧ s.size ≤ 128 then
    let s1 : AverageBufferFilter :=
      { s with
        buffer := fun j => if j = s.index then value else s.buffer j,
        index := (s.index + 1) % s.size }
    some (s1, s1.buffer_average)
  else
    none

/-- State of `class ConvoluationFilter`: `uint8_t size = 128`,
`uint8_t index = 0`, `uint32_t buffer[128]` and `uint32_t coefficients[128]`. -/
structure ConvoluationFilter where
  size : Nat
  index : Nat
  buffer : Nat → Nat
  coefficients : Nat → Nat

/-- The default member initialisers of `ConvoluationFilter`; the two arrays are
not initialised. -/
def ConvoluationFilter.init (buffer coefficients : Nat → Nat) : ConvoluationFilter :=
  { size := 128, index := 0, buffer := buffer, coefficients := coefficients }

/-- `ConvoluationFilter::convolve()`. -/
def ConvoluationFilter.convolve (s : ConvoluationFilter) : Nat :=
  (List.range s.size).foldl
    (fun average i => (average + s.buffer i / s.size) % 4294967296) 0

/-- `ConvoluationFilter::operator()(uint32_t value)`, `none` where the call has
no defined behaviour. -/
def ConvoluationFilter.call (s : ConvoluationFilter) (value : Nat) :
    Option (ConvoluationFilter × Nat) :=
  if s.index < 128 ∧ 0 < s.size ∧ s.size ≤ 128 then
    let s1 : ConvoluationFilter :=
      { s with
        buffer := fun j => if j = s.index then value else s.buffer j,
        index := (s.index + 1) % s.size }
    some (s1, s1.convolve)
  else
    none

/-! ## Floating point -/

/-- The operations the source applies to `float` and `double` values.  They
are not interpreted: every definition that needs them takes such a record. -/
structure FloatOps (F : Type) where
  /-- Conversion from an integer type. -/
  ofInt : Int → F
  /-- The decimal literal `m / 10^e`. -/
  ofDecimal : Nat → Nat → F
  /-- Addition. -/
  add : F → F → F
  /-- Subtraction. -/
  sub : F → F → F
  /-- Multiplication. -/
  mul : F → F → F
  /-- Division. -/
  div : F → F → F
  /-- The comparison `<`. -/
  lt : F → F → Bool
  /-- Conversion to `uint32_t`. -/
  toUInt32 : F → Nat
  /-- Conversion to `int`. -/
  toInt : F → Int

/-- Exact rational arithmetic as one instance of `FloatOps`, used to run the
definitions on concrete inputs: no operation rounds, and the conversions to
integer types truncate toward zero as the C conversions do (an out-of-range
conversion to `uint32_t` is reduced modulo `2^32`). -/
def ratOps : FloatOps Rat where
  ofInt := fun i => (i : Rat)
  ofDecimal := fun m e => (m : Rat) / (10 : Rat) ^ e
  add := fun a b => a + b
  sub := fun a b => a - b
  mul := fun a b => a * b
  div := fun a b => a / b
  lt := fun a b => decide (a < b)
  toUInt32 := fun a => toU32 (if 0 ≤ a then Int.floor a else Int.ceil a)
  toInt := fun a => if 0 ≤ a then Int.floor a else Int.ceil a

/-- `FilteredNoise::FilteredNoise()`: the target is the first draw of the
sub-generator `LCGNoise random{12345}`, and
`slope = ((float)5 / (float)__UINT8_MAX__) * (float)__UINT32_MAX__`. -/
def FilteredNoise.init {F : Type} (fl : FloatOps F) : FilteredNoise :=
  let drawn := LCGNoise.next { seed := 12345 }
  { target := drawn.2,
    random := drawn.1,
    direction := 1,
    value := 0,
    slope := fl.toUInt32
      (fl.mul (fl.div (fl.ofInt 5) (fl.ofInt UINT8_MAX)) (fl.ofInt UINT32_MAX)) }

/-- State of `class InfiniteImpulseFilter`. -/
structure InfiniteImpulseFilter (D : Type) where
  coefficient : D
  last_value : D

/-- State of `class LadderFilter`. -/
structure LadderFilter (D : Type) where
  resonance : D
  coefficient : D
  out1 : Nat
  out2 : Nat
  out3 : Nat
  out4 : Nat

/-! ## The applet -/

/-- The macro `INPUT_STEP_CONSTRAIN(value, direction, step, min, max)` where
`value` is a `uint8_t`: `typeof(value) v = value + (direction * step)` is
computed in `int` and converted to `uint8_t` before the two comparisons. -/
def INPUT_STEP_CONSTRAIN_uint8 (value : Nat) (direction step min max : Int) : Nat :=
  let v : Nat := toU8 ((value : Int) + direction * step)
  if (v : Int) < min then toU8 min
  else if (v : Int) > max then toU8 max
  else v

/-- The macro `INPUT_STEP_CONSTRAIN(value, direction, step, min, max)` where
`value` is a `double`. -/
def INPUT_STEP_CONSTRAIN_double {D : Type} (db : FloatOps D) (value : D) (direction : Int)
    (step min max : D) : D :=
  let v : D := db.add value (db.mul (db.ofInt direction) step)
  if db.lt v min then min
  else if db.lt max v then max
  else v

/-- State of `class Noise`: the members of the applet. -/
structure Noise (D : Type) where
  mode : Int
  lfsr_noise : LFSRNoise
  xorshift_noise : XorShift32Noise
  lcg_noise : LCGNoise
  filt_noise : FilteredNoise
  avg_filt : AverageBufferFilter
  inf_imp_filt : InfiniteImpulseFilter D
  convolution_filt : ConvoluationFilter
  ladder_filt : LadderFilter D
  encoderVal : Int
  count : Int

/-- `Noise::OnButtonPress()`: `mode = (mode + 1) % 2` on an `int`, whose `%`
truncates toward zero. -/
def Noise.OnButtonPress {D : Type} (s : Noise D) : Noise D :=
  { s with mode := Int.tmod (s.mode + 1) 2 }

/-- `Noise::OnEncoderMove(int direction)`; `fl` interprets the `float`
arithmetic of the slope update and `db` the `double` arithmetic of the macro. -/
def Noise.OnEncoderMove {F D : Type} (fl : FloatOps F) (db : FloatOps D) (s : Noise D)
    (direction : Int) : Noise D :=
  let slope : F := fl.ofInt direction
  let filt_noise : FilteredNoise :=
    { s.filt_noise with
      slope := fl.toUInt32
        (fl.add (fl.ofInt s.filt_noise.slope)
          (fl.mul (fl.div slope (fl.ofInt UINT8_MAX)) (fl.ofInt UINT32_MAX))) }
  let avg_filt : AverageBufferFilter :=
    { s.avg_filt with
      size := INPUT_STEP_CONSTRAIN_uint8 s.avg_filt.size direction 1 1 s.avg_filt.max_size }
  let inf_imp_filt : InfiniteImpulseFilter D :=
    { s.inf_imp_filt with
      coefficient := INPUT_STEP_CONSTRAIN_double db s.inf_imp_filt.coefficient direction
        (db.ofDecimal 1 2) (db.ofDecimal 1 2) (db.ofDecimal 99 2) }
  let ladder_filt : LadderFilter D :=
    if s.mode = 0 then
      { s.ladder_filt with
        coefficient := INPUT_STEP_CONSTRAIN_double db s.ladder_filt.coefficient direction
          (db.ofDecimal 1 2) (db.ofDecimal 1 2) (db.ofDecimal 99 2) }
    else if s.mode = 1 then
      { s.ladder_filt with
        resonance := INPUT_STEP_CONSTRAIN_double db s.ladder_filt.resonance direction
          (db.ofDecimal 0 2) (db.ofDecimal 1 2) (db.ofDecimal 99 2) }
    else s.ladder_filt
  { s with
    filt_noise := filt_noise,
    avg_filt := avg_filt,
    inf_imp_filt := inf_imp_filt,
    ladder_filt := ladder_filt }

/-- An input event delivered by the host. -/
inductive Event where
  | button : Event
  | encoder (direction : Int) : Event

/-- Whether an event is a button press. -/
def Event.isButton : Event → Bool
  | Event.button => true
  | Event.encoder _ => false

/-- The values of `mode` right after each button press of a sequence of
events, in order. -/
def Noise.buttonModes {F D : Type} (fl : FloatOps F) (db : FloatOps D) (s : Noise D) :
    List Event → List Int
  | [] => []
  | Event.button :: events =>
    (s.OnButtonPress).mode :: Noise.buttonModes fl db s.OnButtonPress events
  | Event.encoder direction :: events =>
    Noise.buttonModes fl db (s.OnEncoderMove fl db direction) events

/-- `InfiniteImpulseFilter::operator()(uint32_t value)`:
`last_value = coefficient * value + (1.0 - coefficient) * last_value`. -/
def InfiniteImpulseFilter.call {D : Type} (db : FloatOps D) (s : InfiniteImpulseFilter D)
    (value : Nat) : InfiniteImpulseFilter D × Nat :=
  let last_value : D :=
    db.add (db.mul s.coefficient (db.ofInt value))
      (db.mul (db.sub (db.ofDecimal 10 1) s.coefficient) s.last_value)
  ({ s with last_value := last_value }, db.toUInt32 last_value)

/-- The `double` that the first statement of `LadderFilter::operator()`
converts to `uint32_t`: `(double)v0 - ((double)out4) * resonance`. -/
def LadderFilter.feedbackInput {D : Type} (db : FloatOps D) (s : LadderFilter D) (v0 : Nat) :
    D :=
  db.sub (db.ofInt v0) (db.mul (db.ofInt s.out4) s.resonance)

/-- One stage of the ladder:
`(coefficient * (double)input) + ((1.0 - coefficient) * (double)out)` stored
in a `uint32_t`. -/
def LadderFilter.stage {D : Type} (db : FloatOps D) (coefficient : D) (input out : Nat) :
    Nat :=
  db.toUInt32
    (db.add (db.mul coefficient (db.ofInt input))
      (db.mul (db.sub (db.ofDecimal 10 1) coefficient) (db.ofInt out)))

/-- `LadderFilter::operator()(uint32_t v0)`. -/
def LadderFilter.call {D : Type} (db : FloatOps D) (s : LadderFilter D) (v0 : Nat) :
    LadderFilter D × Nat :=
  let v0 : Nat := db.toUInt32 (s.feedbackInput db v0)
  let out1 := LadderFilter.stage db s.coefficient v0 s.out1
  let out2 := LadderFilter.stage db s.coefficient out1 s.out2
  let out3 := LadderFilter.stage db s.coefficient out2 s.out3
  let out4 := LadderFilter.stage db s.coefficient out3 s.out4
  ({ s with out1 := out1, out2 := out2, out3 := out3, out4 := out4 }, out4)

/-- `Noise::Start()`: the body is empty. -/
def Noise.Start {D : Type} (s : Noise D) : Noise D := s

/-- The member initialisers of `class Noise` and of its members.  What the
source leaves uninitialised (the cursor and buffer of the average filter, the
two arrays of the convolution filter, the four ladder stages) is an argument. -/
def Noise.construct {F D : Type} (fl : FloatOps F) (db : FloatOps D) (avgIndex : Nat)
    (avgBuffer convBuffer convCoefficients : Nat → Nat) (out1 out2 out3 out4 : Nat) :
    Noise D :=
  { mode := 0,
    lfsr_noise := { seed := 12345 },
    xorshift_noise := XorShift32Noise.mk32 12345,
    lcg_noise := { seed := 12345 },
    filt_noise := FilteredNoise.init fl,
    avg_filt := AverageBufferFilter.init 64 avgIndex avgBuffer,
    inf_imp_filt := { coefficient := db.ofDecimal 9 1, last_value := db.ofInt 0 },
    convolution_filt := ConvoluationFilter.init convBuffer convCoefficients,
    ladder_filt := { resonance := db.ofDecimal 5 1, coefficient := db.ofDecimal 9 1,
                     out1 := out1, out2 := out2, out3 := out3, out4 := out4 },
    encoderVal := 0,
    count := 0 }

/-- `Noise::scale(value, value_range, bits, maxrange)`:
`float scaled = ((float)value / (float)value_range) * (float)maxrange;
return scaled;` where the return converts the `float` to `int`. -/
def Noise.scale {F : Type} (fl : FloatOps F) (value value_range : Nat) (_bits : Nat)
    (maxrange : Int) : Int :=
  fl.toInt (fl.mul (fl.div (fl.ofInt value) (fl.ofInt value_range)) (fl.ofInt maxrange))

/-- `Noise::Controller()`.  The two calls `Out(0, ..)` and `Out(1, ..)` of the
host are the second and third component of the result; the result is `none`
when the call of the average filter has no defined behaviour. -/
def Noise.Controller {F D : Type} (fl : FloatOps F) (s : Noise D) :
    Option (Noise D × Int × Int) :=
  let maxrange : Int := 7680
  let drawn := s.lcg_noise.next
  let noise := drawn.2
  let out0 := Noise.scale fl noise FilteredNoise.max LCGNoise.bits maxrange
  match s.avg_filt.call noise with
  | none => none
  | some (avg_filt, f) =>
    some ({ s with lcg_noise := drawn.1, avg_filt := avg_filt, count := s.count + 1 },
      out0, Noise.scale fl f XorShift32Noise.max XorShift32Noise.bits maxrange)

/-- An event that touches the average filter: a call with an input value, or
an encoder move. -/
inductive AvgEvent where
  | call (value : Nat) : AvgEvent
  | encoder (direction : Int) : AvgEvent

/-- One event applied to the applet; `none` when the filter call has no
defined behaviour. -/
def Noise.applyAvg {F D : Type} (fl : FloatOps F) (db : FloatOps D) (s : Noise D) :
    AvgEvent → Option (Noise D)
  | AvgEvent.call value =>
    match s.avg_filt.call value with
    | none => none
    | some (avg_filt, _) => some { s with avg_filt := avg_filt }
  | AvgEvent.encoder direction => some (s.OnEncoderMove fl db direction)

/-- A sequence of events applied in order, `none` as soon as one event has no
defined behaviour. -/
def Noise.runAvg {F D : Type} (fl : FloatOps F) (db : FloatOps D) (s : Noise D) :
    List AvgEvent → Option (Noise D)
  | [] => some s
  | e :: events =>
    match Noise.applyAvg fl db s e with
    | none => none
    | some s1 => Noise.runAvg fl db s1 events

/-- Consecutive calls of `AverageBufferFilter` on a list of inputs: the final
state and the returned values in order, `none` when a call has no defined
behaviour. -/
def AverageBufferFilter.calls (s : AverageBufferFilter) :
    List Nat → Option (AverageBufferFilter × List Nat)
  | [] => some (s, [])
  | x :: xs =>
    match s.call x with
    | none => none
    | some (s1, r) =>
      match AverageBufferFilter.calls s1 xs with
      | none => none
      | some (s2, rs) => some (s2, r :: rs)

/-- The first `size` slots read cyclically from the write cursor. -/
def AverageBufferFilter.window (s : AverageBufferFilter) : List Nat :=
  (List.range s.size).map (fun k => s.buffer ((s.index + k) % s.size))

/-- The generator after a sequence of calls, the public member `slope` being
set to the given value before each call. -/
def FilteredNoise.runSlopes (s : FilteredNoise) : List Nat → FilteredNoise
  | [] => s
  | slope :: slopes =>
    FilteredNoise.runSlopes (FilteredNoise.call { s with slope := slope }).1 slopes

/-- The invariant of the reachable states of `FilteredNoise`: value and target
are `uint32_t`; when ascending the value is at most the target, which is in the
upper half or is still the first, unmapped draw 2044445496 of the generator
seeded 12345; when descending the value is at least the target, which is in
the lower half. -/
def FilteredNoise.Inv (s : FilteredNoise) : Prop :=
  s.value < 4294967296 ∧ s.target < 4294967296 ∧
  ((s.direction = 1 ∧ s.value ≤ s.target ∧
      (2147483648 ≤ s.target ∨ (s.target = 2044445496 ∧ s.random.seed = 2044445496))) ∨
    (s.direction = -1 ∧ s.target ≤ s.value ∧ s.target < 2147483648))

/-- A concrete applet state for running the definitions: every generator
seeded with 12345 as in the member initialisers, zeroed buffers. -/
def Noise.sample (mode : Int) (size : Nat) : Noise Rat :=
  { mode := mode,
    lfsr_noise := { seed := 12345 },
    xorshift_noise := XorShift32Noise.mk32 12345,
    lcg_noise := { seed := 12345 },
    filt_noise := FilteredNoise.init ratOps,
    avg_filt := { max_size := 128, size := size, index := 0, buffer := fun _ => 0 },
    inf_imp_filt := { coefficient := 9 / 10, last_value := 0 },
    convolution_filt := ConvoluationFilter.init (fun _ => 0) (fun _ => 0),
    ladder_filt := { resonance := 1 / 2, coefficient := 9 / 10,
                     out1 := 0, out2 := 0, out3 := 0, out4 := 0 },
    encoderVal := 0,
    count := 0 }

end NoiseApplet

/-! ## Clock divider applet (`software/src/applets/ClockDivider.h`) -/

namespace ClockDividerApplet

/-- The constant `HEM_DIVISIONS`. -/
def HEM_DIVISIONS : Int := 16

/-- The table `int divisions[]`. -/
def divisions : List Int := [-8, -7, -6, -5, -4, -3, -2, 1, 2, 3, 4, 5, 6, 7, 8, 16, 32]

/-- Modelled from the spec: the macro `constrain` comes from a header that is
not among the sources; it clamps its first argument between the other two,
`(amt < low) ? low : (amt > high ? high : amt)`. -/
def constrain (amt low high : Int) : Int :=
  if amt < low then low else if amt > high then high else amt

/-- State of `class ClockDivider`: the arrays `div[2]`, `cv[2]`, `count[2]`,
`next_clock[2]` as functions of the channel, `cursor` and `cycle_time`. -/
structure ClockDivider where
  div : Nat → Int
  cv : Nat → Int
  count : Nat → Int
  next_clock : Nat → Int
  cursor : Int
  cycle_time : Int

/-- The index `constrain(dv, 0, HEM_DIVISIONS)` that `GetDivisionFor` reads
the table at, with `dv = div[ch] + cv[ch]`. -/
def ClockDivider.divisionIndex (s : ClockDivider) (ch : Nat) : Int :=
  let dv := s.div ch + s.cv ch
  constrain dv 0 HEM_DIVISIONS

/-- `ClockDivider::GetDivisionFor(ch)`: `none` when the index is outside the
table. -/
def ClockDivider.GetDivisionFor (s : ClockDivider) (ch : Nat) : Option Int :=
  if 0 ≤ s.divisionIndex ch then divisions.get? (s.divisionIndex ch).toNat else none

/-- The expression `cycle_time / abs(GetDivisionFor(ch))` of
`ClockDivider::Controller`: `none` when the table read is out of bounds or the
divisor is zero. -/
def ClockDivider.clock_every (s : ClockDivider) (ch : Nat) : Option Int :=
  match s.GetDivisionFor ch with
  | none => none
  | some d => if |d| = 0 then none else some (Int.tdiv s.cycle_time |d|)

end ClockDividerApplet


/-! ## Theorems -/

namespace NoiseApplet

/-! ### Helper lemmas on shift-xor steps -/

theorem eq_zero_of_eq_mul_mod (x m : Nat) (hm : Nat.Coprime 18446744073709551616 m)
    (h : x < 18446744073709551616) (e : x = (x * (m + 1)) % 18446744073709551616) : x = 0 := by
  have h1 : x ≡ x * (m + 1) [MOD 18446744073709551616] := by
    unfold Nat.ModEq
    rw [← e, Nat.mod_eq_of_lt h]
  have h2 : 18446744073709551616 ∣ x * (m + 1) - x :=
    (Nat.modEq_iff_dvd' (Nat.le_mul_of_pos_right x (Nat.succ_pos m))).mp h1
  have h3 : x * (m + 1) - x = m * x := by
    rw [Nat.mul_succ, Nat.add_sub_cancel, Nat.mul_comm]
  rw [h3] at h2
  exact Nat.eq_zero_of_dvd_of_lt (hm.dvd_of_dvd_mul_left h2) h

theorem xor_shl13_ne_zero (x : Nat) (h : x < 18446744073709551616) (hx : x ≠ 0) :
    x ^^^ ((x <<< 13) % 18446744073709551616) ≠ 0 := by
  rw [Ne, Nat.xor_eq_zero, Nat.shiftLeft_eq]
  intro e
  exact hx (eq_zero_of_eq_mul_mod x 8191 (by norm_num) h e)

theorem xor_shl5_ne_zero (x : Nat) (h : x < 18446744073709551616) (hx : x ≠ 0) :
    x ^^^ ((x <<< 5) % 18446744073709551616) ≠ 0 := by
  rw [Ne, Nat.xor_eq_zero, Nat.shiftLeft_eq]
  intro e
  exact hx (eq_zero_of_eq_mul_mod x 31 (by norm_num) h e)

theorem xor_shl17_ne_zero (x : Nat) (h : x < 18446744073709551616) (hx : x ≠ 0) :
    x ^^^ ((x <<< 17) % 18446744073709551616) ≠ 0 := by
  rw [Ne, Nat.xor_eq_zero, Nat.shiftLeft_eq]
  intro e
  exact hx (eq_zero_of_eq_mul_mod x 131071 (by norm_num) h e)

theorem xor_shr17_ne_zero (x : Nat) (hx : x ≠ 0) : x ^^^ (x >>> 17) ≠ 0 := by
  rw [Ne, Nat.xor_eq_zero, Nat.shiftRight_eq_div_pow]
  norm_num
  omega

theorem xor_shr7_ne_zero (x : Nat) (hx : x ≠ 0) : x ^^^ (x >>> 7) ≠ 0 := by
  rw [Ne, Nat.xor_eq_zero, Nat.shiftRight_eq_div_pow]
  norm_num
  omega

theorem xor_shl_lt (x k : Nat) (h : x < 18446744073709551616) :
    x ^^^ ((x <<< k) % 18446744073709551616) < 18446744073709551616 := by
  have h2 : (x <<< k) % 18446744073709551616 < 2 ^ 64 := Nat.mod_lt _ (by norm_num)
  have h1 : x < 2 ^ 64 := by norm_num; exact h
  have := Nat.xor_lt_two_pow h1 h2
  norm_num at this
  exact this

theorem xor_shr_lt (x k : Nat) (h : x < 18446744073709551616) :
    x ^^^ (x >>> k) < 18446744073709551616 := by
  have h1 : x < 2 ^ 64 := by norm_num; exact h
  have h2 : x >>> k < 2 ^ 64 := by
    rw [Nat.shiftRight_eq_div_pow]
    exact lt_of_le_of_lt (Nat.div_le_self _ _) h1
  have := Nat.xor_lt_two_pow h1 h2
  norm_num at this
  exact this

/-- One `LFSRNoise::next()` keeps a nonzero 32-bit register nonzero and 32-bit. -/
theorem LFSRNoise.next_keeps (g : LFSRNoise) (h : g.seed < 4294967296) (h0 : g.seed ≠ 0) :
    (g.next).1.seed < 4294967296 ∧ (g.next).1.seed ≠ 0 := by
  have hdiv : g.seed >>> 1 = g.seed / 2 := by
    rw [Nat.shiftRight_eq_div_pow, pow_one]
  simp only [LFSRNoise.next, Nat.and_one_is_mod]
  split
  · rename_i hodd
    constructor
    · have h1 : g.seed >>> 1 < 2 ^ 32 := by rw [hdiv]; norm_num; omega
      have h2 : (0x80000062 : Nat) < 2 ^ 32 := by norm_num
      have := Nat.xor_lt_two_pow h1 h2
      norm_num at this
      exact this
    · rw [Ne, Nat.xor_eq_zero, hdiv]
      omega
  · rename_i heven
    rw [hdiv]
    constructor <;> omega

/-- One `XorShift32Noise::operator()` keeps a nonzero 64-bit register nonzero
and 64-bit. -/
theorem XorShift32Noise.call32_keeps (g : XorShift32Noise) (h : g.seed < 18446744073709551616)
    (h0 : g.seed ≠ 0) :
    (g.call).1.seed < 18446744073709551616 ∧ (g.call).1.seed ≠ 0 := by
  simp only [XorShift32Noise.call]
  have a1 := xor_shl_lt g.seed 13 h
  have b1 := xor_shl13_ne_zero g.seed h h0
  have a2 := xor_shr_lt _ 17 a1
  have b2 := xor_shr17_ne_zero _ b1
  exact ⟨xor_shl_lt _ 5 a2, xor_shl5_ne_zero _ a2 b2⟩

/-- One `XorShift64Noise::operator()` keeps a nonzero 64-bit register nonzero
and 64-bit. -/
theorem XorShift64Noise.call64_keeps (g : XorShift64Noise) (h : g.seed < 18446744073709551616)
    (h0 : g.seed ≠ 0) :
    (g.call).1.seed < 18446744073709551616 ∧ (g.call).1.seed ≠ 0 := by
  simp only [XorShift64Noise.call]
  have a1 := xor_shl_lt g.seed 13 h
  have b1 := xor_shl13_ne_zero g.seed h h0
  have a2 := xor_shr_lt _ 7 a1
  have b2 := xor_shr7_ne_zero _ b1
  exact ⟨xor_shl_lt _ 17 a2, xor_shl17_ne_zero _ a2 b2⟩

/-- A property kept by one advance is kept by any number of advances. -/
theorem advances_keeps {G : Type} (adv : G → G × Nat) (P : G → Prop)
    (hstep : ∀ g, P g → P (adv g).1) (g : G) (hg : P g) (n : Nat) :
    P (advances adv g n) := by
  induction n with
  | zero => exact hg
  | succ n ih =>
    unfold advances at ih ⊢
    rw [Function.iterate_succ_apply']
    exact hstep _ ih

/-! ### Pseudo-random generators -/

/-- C1: for every register value `s`, `LCGNoise::next()` stores and returns
`(s * 196314165 + 907633515) mod 2^32`, a 32-bit value; seeded with 22222 the
first advance returns `(22222 * 196314165 + 907633515) mod 2^32 = 4009202705`. -/
theorem LCGNoise_next_spec :
    (∀ s : Nat,
      (LCGNoise.next { seed := s }).2 = (s * 196314165 + 907633515) % 2 ^ 32 ∧
      (LCGNoise.next { seed := s }).1.seed = (s * 196314165 + 907633515) % 2 ^ 32 ∧
      (LCGNoise.next { seed := s }).2 < 2 ^ 32) ∧
    (LCGNoise.next { seed := 22222 }).2 = (22222 * 196314165 + 907633515) % 2 ^ 32 ∧
    (LCGNoise.next { seed := 22222 }).2 = 4009202705 := by
  refine ⟨fun s => ?_, by decide, by decide⟩
  simp only [LCGNoise.next]
  norm_num
  omega

/-- C2 (the code at the failing inputs): with the seed 12345 that the applet
uses, the second value returned by `XorShift32Noise` is 3833858479 while the
second iterate of the 32-bit xorshift recurrence is 1697253807; with the seed
524288 the first values already differ (18382980 against 17301636); the first
values agree for the seed 12345. -/
theorem XorShift32Noise_not_32bit :
    nthValue XorShift32Noise.call (XorShift32Noise.mk32 12345) 1 = specXorShift32^[1] 12345 ∧
    nthValue XorShift32Noise.call (XorShift32Noise.mk32 12345) 2 = 3833858479 ∧
    specXorShift32^[2] 12345 = 1697253807 ∧
    nthValue XorShift32Noise.call (XorShift32Noise.mk32 524288) 1 = 18382980 ∧
    specXorShift32^[1] 524288 = 17301636 := by
  refine ⟨by decide, by decide, by decide, by decide, by decide⟩

/-- C3: for each of `LFSRNoise`, `XorShift32Noise` and `XorShift64Noise`, with
the register within its width: one advance leaves the register zero if and
only if it was zero; at the zero register the advance returns 0; and from a
nonzero register no number of advances reaches the zero register. -/
theorem zero_register_iff (a : LFSRNoise) (b : XorShift32Noise) (c : XorShift64Noise)
    (ha : a.seed < 2 ^ 32) (hb : b.seed < 2 ^ 64) (hc : c.seed < 2 ^ 64) :
    (((a.next).1.seed = 0 ↔ a.seed = 0) ∧ (a.seed = 0 → (a.next).2 = 0) ∧
      (a.seed ≠ 0 → ∀ n, (advances LFSRNoise.next a n).seed ≠ 0)) ∧
    (((b.call).1.seed = 0 ↔ b.seed = 0) ∧ (b.seed = 0 → (b.call).2 = 0) ∧
      (b.seed ≠ 0 → ∀ n, (advances XorShift32Noise.call b n).seed ≠ 0)) ∧
    (((c.call).1.seed = 0 ↔ c.seed = 0) ∧ (c.seed = 0 → (c.call).2 = 0) ∧
      (c.seed ≠ 0 → ∀ n, (advances XorShift64Noise.call c n).seed ≠ 0)) := by
  have ha2 : a.seed < 4294967296 := by norm_num at ha; exact ha
  have hb2 : b.seed < 18446744073709551616 := by norm_num at hb; exact hb
  have hc2 : c.seed < 18446744073709551616 := by norm_num at hc; exact hc
  refine ⟨⟨⟨?_, ?_⟩, ?_, ?_⟩, ⟨⟨?_, ?_⟩, ?_, ?_⟩, ⟨⟨?_, ?_⟩, ?_, ?_⟩⟩
  · intro h
    by_contra h0
    exact (LFSRNoise.next_keeps a ha2 h0).2 h
  · intro h
    obtain ⟨x⟩ := a
    subst h
    decide
  · intro h
    obtain ⟨x⟩ := a
    subst h
    decide
  · intro h0 n
    exact (advances_keeps LFSRNoise.next (fun g => g.seed < 4294967296 ∧ g.seed ≠ 0)
      (fun g hg => LFSRNoise.next_keeps g hg.1 hg.2) a ⟨ha2, h0⟩ n).2
  · intro h
    by_contra h0
    exact (XorShift32Noise.call32_keeps b hb2 h0).2 h
  · intro h
    obtain ⟨x⟩ := b
    subst h
    decide
  · intro h
    obtain ⟨x⟩ := b
    subst h
    decide
  · intro h0 n
    exact (advances_keeps XorShift32Noise.call
      (fun g => g.seed < 18446744073709551616 ∧ g.seed ≠ 0)
      (fun g hg => XorShift32Noise.call32_keeps g hg.1 hg.2) b ⟨hb2, h0⟩ n).2
  · intro h
    by_contra h0
    exact (XorShift64Noise.call64_keeps c hc2 h0).2 h
  · intro h
    obtain ⟨x⟩ := c
    subst h
    decide
  · intro h
    obtain ⟨x⟩ := c
    subst h
    decide
  · intro h0 n
    exact (advances_keeps XorShift64Noise.call
      (fun g => g.seed < 18446744073709551616 ∧ g.seed ≠ 0)
      (fun g hg => XorShift64Noise.call64_keeps g hg.1 hg.2) c ⟨hc2, h0⟩ n).2

/-- Witness of `zero_register_iff` at the seeds 12345, 12345 and 161803398. -/
theorem zero_register_iff_witness :
    (((LFSRNoise.next { seed := 12345 }).1.seed = 0 ↔ (12345 : Nat) = 0) ∧
      ((12345 : Nat) = 0 → (LFSRNoise.next { seed := 12345 }).2 = 0) ∧
      ((12345 : Nat) ≠ 0 → ∀ n, (advances LFSRNoise.next { seed := 12345 } n).seed ≠ 0)) ∧
    (((XorShift32Noise.call { seed := 12345 }).1.seed = 0 ↔ (12345 : Nat) = 0) ∧
      ((12345 : Nat) = 0 → (XorShift32Noise.call { seed := 12345 }).2 = 0) ∧
      ((12345 : Nat) ≠ 0 →
        ∀ n, (advances XorShift32Noise.call { seed := 12345 } n).seed ≠ 0)) ∧
    (((XorShift64Noise.call { seed := 161803398 }).1.seed = 0 ↔ (161803398 : Nat) = 0) ∧
      ((161803398 : Nat) = 0 → (XorShift64Noise.call { seed := 161803398 }).2 = 0) ∧
      ((161803398 : Nat) ≠ 0 →
        ∀ n, (advances XorShift64Noise.call { seed := 161803398 } n).seed ≠ 0)) :=
  zero_register_iff { seed := 12345 } { seed := 12345 } { seed := 161803398 }
    (by decide) (by decide) (by decide)

/-! ### The target-seeking generator -/

theorem toU32_neg_one : toU32 (-1) = 4294967295 := by
  simp [toU32]

theorem toU32_one : toU32 1 = 1 := by decide

theorem two_pow_le_or (x : Nat) : 2 ^ 31 ≤ x ||| 2 ^ 31 := by
  apply Nat.testBit_implies_ge
  rw [Nat.testBit_or, Nat.testBit_two_pow_self, Bool.or_true]

/-- The state and the value of a call that reaches or passes the target. -/
theorem FilteredNoise.call_pos (s : FilteredNoise)
    (hc : (0 < s.direction ∧ s.slopeAdjusted ≥ s.target) ∨
      (s.direction < 0 ∧ s.slopeAdjusted ≤ s.target)) :
    (s.call).1 =
      { slope := s.slope,
        random := (s.random.next).1,
        value := s.target,
        target := if 0 < -s.direction then
            ((s.random.next).2 >>> 1) ||| (FilteredNoise.max / 2 + 1)
          else (s.random.next).2 >>> 1,
        direction := -s.direction } ∧
    (s.call).2 = s.target := by
  have h : s.call =
      ({ slope := s.slope,
         random := (s.random.next).1,
         value := s.target,
         target := if 0 < -s.direction then
             ((s.random.next).2 >>> 1) ||| (FilteredNoise.max / 2 + 1)
           else (s.random.next).2 >>> 1,
         direction := -s.direction }, s.target) := by
    unfold FilteredNoise.call
    exact if_pos hc
  exact ⟨congrArg Prod.fst h, congrArg Prod.snd h⟩

/-- The state and the value of a call that does not reach the target. -/
theorem FilteredNoise.call_neg (s : FilteredNoise)
    (hc : ¬ ((0 < s.direction ∧ s.slopeAdjusted ≥ s.target) ∨
      (s.direction < 0 ∧ s.slopeAdjusted ≤ s.target))) :
    (s.call).1 =
      { slope := s.slope, random := s.random, value := s.slopeAdjusted,
        target := s.target, direction := s.direction } ∧
    (s.call).2 = s.slopeAdjusted := by
  have h : s.call =
      ({ slope := s.slope, random := s.random, value := s.slopeAdjusted,
         target := s.target, direction := s.direction }, s.slopeAdjusted) := by
    unfold FilteredNoise.call
    exact if_neg hc
  exact ⟨congrArg Prod.fst h, congrArg Prod.snd h⟩

/-- The value a call returns is the value it stores. -/
theorem FilteredNoise.call_snd (s : FilteredNoise) : (s.call).2 = (s.call).1.value := by
  by_cases hc : (0 < s.direction ∧ s.slopeAdjusted ≥ s.target) ∨
      (s.direction < 0 ∧ s.slopeAdjusted ≤ s.target)
  · rw [(FilteredNoise.call_pos s hc).1, (FilteredNoise.call_pos s hc).2]
  · rw [(FilteredNoise.call_neg s hc).1, (FilteredNoise.call_neg s hc).2]

/-- A call never changes the slope. -/
theorem FilteredNoise.call_slope (s : FilteredNoise) : (s.call).1.slope = s.slope := by
  by_cases hc : (0 < s.direction ∧ s.slopeAdjusted ≥ s.target) ∨
      (s.direction < 0 ∧ s.slopeAdjusted ≤ s.target)
  · rw [(FilteredNoise.call_pos s hc).1]
  · rw [(FilteredNoise.call_neg s hc).1]

/-- C4: in a state whose direction is +1 or -1, a call on which the
slope-adjusted value reaches or passes the target returns the old target,
stores it as the value, negates the direction, advances the sub-generator by
exactly one draw `rng`, and sets the target to `(rng >> 1) | 2^31` (at least
`2^31`) when the new direction is +1 and to `rng >> 1` (at most `2^31 - 1`)
when it is -1; every other call leaves direction, target and sub-generator
unchanged and returns the slope-adjusted value. -/
theorem FilteredNoise_call_spec (s : FilteredNoise)
    (hdir : s.direction = 1 ∨ s.direction = -1) :
    (((s.direction = 1 ∧ s.slopeAdjusted ≥ s.target) ∨
        (s.direction = -1 ∧ s.slopeAdjusted ≤ s.target)) →
      (s.call).2 = s.target ∧ (s.call).1.value = s.target ∧
      (s.call).1.direction = -s.direction ∧
      (s.call).1.random = (s.random.next).1 ∧
      ((s.call).1.direction = 1 →
        (s.call).1.target = ((s.random.next).2 >>> 1) ||| 2 ^ 31 ∧
        2 ^ 31 ≤ (s.call).1.target) ∧
      ((s.call).1.direction = -1 →
        (s.call).1.target = (s.random.next).2 >>> 1 ∧
        (s.call).1.target ≤ 2 ^ 31 - 1)) ∧
    (¬ ((s.direction = 1 ∧ s.slopeAdjusted ≥ s.target) ∨
        (s.direction = -1 ∧ s.slopeAdjusted ≤ s.target)) →
      (s.call).1.direction = s.direction ∧ (s.call).1.target = s.target ∧
      (s.call).1.random = s.random ∧ (s.call).2 = s.slopeAdjusted ∧
      (s.call).1.value = s.slopeAdjusted) := by
  have hmid : FilteredNoise.max / 2 + 1 = 2 ^ 31 := by decide
  have hrng : (s.random.next).2 >>> 1 ≤ 2 ^ 31 - 1 := by
    have h1 : (s.random.next).2 < 4294967296 := by
      unfold LCGNoise.next
      exact Nat.mod_lt _ (by norm_num)
    rw [Nat.shiftRight_eq_div_pow, pow_one]
    norm_num
    omega
  have hiff : ((s.direction = 1 ∧ s.slopeAdjusted ≥ s.target) ∨
        (s.direction = -1 ∧ s.slopeAdjusted ≤ s.target)) ↔
      ((0 < s.direction ∧ s.slopeAdjusted ≥ s.target) ∨
        (s.direction < 0 ∧ s.slopeAdjusted ≤ s.target)) := by
    rcases hdir with hd | hd <;> rw [hd] <;> constructor <;> intro h <;>
      rcases h with h | h <;> first
        | exact Or.inl ⟨by decide, h.2⟩
        | exact Or.inr ⟨by decide, h.2⟩
        | exact absurd h.1 (by decide)
  constructor
  · intro hr
    obtain ⟨h1, h2⟩ := FilteredNoise.call_pos s (hiff.mp hr)
    rw [h1, h2]
    refine ⟨rfl, rfl, rfl, rfl, ?_, ?_⟩
    · intro hnew
      have hnew2 : -s.direction = 1 := hnew
      have htgt : (if 0 < -s.direction then
            ((s.random.next).2 >>> 1) ||| (FilteredNoise.max / 2 + 1)
          else (s.random.next).2 >>> 1) = ((s.random.next).2 >>> 1) ||| 2 ^ 31 := by
        rw [if_pos (by rw [hnew2]; decide), hmid]
      exact ⟨htgt, le_of_le_of_eq (two_pow_le_or _) htgt.symm⟩
    · intro hnew
      have hnew2 : -s.direction = -1 := hnew
      have htgt : (if 0 < -s.direction then
            ((s.random.next).2 >>> 1) ||| (FilteredNoise.max / 2 + 1)
          else (s.random.next).2 >>> 1) = (s.random.next).2 >>> 1 := by
        rw [if_neg (by rw [hnew2]; decide)]
      exact ⟨htgt, le_of_eq_of_le htgt hrng⟩
  · intro hr
    obtain ⟨h1, h2⟩ := FilteredNoise.call_neg s (fun h => hr (hiff.mpr h))
    rw [h1, h2]
    exact ⟨rfl, rfl, rfl, rfl, rfl⟩

/-- Witness of `FilteredNoise_call_spec` at the constructed state with slope
84215045 (value 0, direction +1, target 2044445496): the call does not reach
the target and returns 84215045. -/
theorem FilteredNoise_call_spec_witness :
    ((1 : Int) = 1 ∨ (1 : Int) = -1) ∧
    (FilteredNoise.call (FilteredNoise.mk 84215045 (LCGNoise.mk 2044445496) 0 2044445496 1)).2 =
      FilteredNoise.slopeAdjusted
        (FilteredNoise.mk 84215045 (LCGNoise.mk 2044445496) 0 2044445496 1) :=
  ⟨Or.inl rfl,
    ((FilteredNoise_call_spec (FilteredNoise.mk 84215045 (LCGNoise.mk 2044445496) 0 2044445496 1)
      (Or.inl rfl)).2 (by
        simp [FilteredNoise.slopeAdjusted, FilteredNoise.max, UINT32_MAX, toU32])).2.2.2.1⟩

/-- The slope-adjusted value of a descending state whose value is a
`uint32_t`: `value - slope`, or 0 when that would go below 0. -/
theorem FilteredNoise.slopeAdjusted_descending (S v T : Nat) (r : LCGNoise)
    (hv : v < 4294967296) :
    (FilteredNoise.mk S r v T (-1)).slopeAdjusted = v - S := by
  unfold FilteredNoise.slopeAdjusted
  rw [if_neg (fun h => absurd h.1 (show ¬ (0 : Int) < -1 by decide))]
  by_cases hlt : v < S
  · rw [if_pos ⟨show (-1 : Int) < 0 by decide, hlt⟩]
    omega
  · rw [if_neg (fun h => hlt h.2)]
    show (v + (toU32 (-1) * S) % 4294967296) % 4294967296 = v - S
    rw [toU32_neg_one]
    omega

/-- A descending call that stays above the target only subtracts the slope. -/
theorem FilteredNoise.call_descend (S v T : Nat) (r : LCGNoise) (hv : v < 4294967296)
    (h : T + S < v) :
    ((FilteredNoise.mk S r v T (-1)).call).1 = FilteredNoise.mk S r (v - S) T (-1) ∧
    ((FilteredNoise.mk S r v T (-1)).call).2 = v - S := by
  have hadj := FilteredNoise.slopeAdjusted_descending S v T r hv
  have hc : ¬ ((0 < (FilteredNoise.mk S r v T (-1)).direction ∧
        (FilteredNoise.mk S r v T (-1)).slopeAdjusted ≥ (FilteredNoise.mk S r v T (-1)).target) ∨
      ((FilteredNoise.mk S r v T (-1)).direction < 0 ∧
        (FilteredNoise.mk S r v T (-1)).slopeAdjusted ≤
          (FilteredNoise.mk S r v T (-1)).target)) := by
    rw [hadj]
    rintro (h1 | h1)
    · exact absurd h1.1 (show ¬ (0 : Int) < -1 by decide)
    · have h2 : v - S ≤ T := h1.2
      omega
  obtain ⟨h1, h2⟩ := FilteredNoise.call_neg _ hc
  rw [h1, h2, hadj]
  exact ⟨rfl, rfl⟩

/-- A descending call that reaches or passes the target snaps to it and flips
the direction. -/
theorem FilteredNoise.call_snap (S v T : Nat) (r : LCGNoise) (hv : v < 4294967296)
    (h : v ≤ T + S) :
    ((FilteredNoise.mk S r v T (-1)).call).2 = T ∧
    ((FilteredNoise.mk S r v T (-1)).call).1.value = T ∧
    ((FilteredNoise.mk S r v T (-1)).call).1.direction = 1 := by
  have hadj := FilteredNoise.slopeAdjusted_descending S v T r hv
  have hc : (0 < (FilteredNoise.mk S r v T (-1)).direction ∧
        (FilteredNoise.mk S r v T (-1)).slopeAdjusted ≥ (FilteredNoise.mk S r v T (-1)).target) ∨
      ((FilteredNoise.mk S r v T (-1)).direction < 0 ∧
        (FilteredNoise.mk S r v T (-1)).slopeAdjusted ≤
          (FilteredNoise.mk S r v T (-1)).target) := by
    rw [hadj]
    refine Or.inr ⟨show (-1 : Int) < 0 by decide, ?_⟩
    show v - S ≤ T
    omega
  obtain ⟨h1, h2⟩ := FilteredNoise.call_pos _ hc
  rw [h1, h2]
  exact ⟨rfl, rfl, rfl⟩

/-- Closed form of a descent: as long as `j` slopes fit strictly above the
target, `j` calls subtract `j * slope` and change nothing else. -/
theorem FilteredNoise.advances_descend (S v T : Nat) (r : LCGNoise) (hv : v < 4294967296)
    (j : Nat) (hj : j * S + T < v) :
    advances FilteredNoise.call (FilteredNoise.mk S r v T (-1)) j =
      FilteredNoise.mk S r (v - j * S) T (-1) := by
  induction j with
  | zero =>
    unfold advances
    rw [Function.iterate_zero, id, Nat.zero_mul, Nat.sub_zero]
  | succ j ih =>
    have hsucc : (j + 1) * S = j * S + S := Nat.succ_mul j S
    have hj2 : j * S + T < v := by omega
    have ih2 := ih hj2
    unfold advances at ih2 ⊢
    rw [Function.iterate_succ_apply', ih2]
    have hstep := (FilteredNoise.call_descend S (v - j * S) T r (by omega) (by omega)).1
    rw [hstep, hsucc, Nat.sub_add_eq]

/-- A descent in which `k - 1` slopes fit strictly above the target and `k`
slopes do not: the first `k - 1` calls stay above the target, the `k`-th
returns the target and flips the direction. -/
theorem FilteredNoise.descent_aux (S v T : Nat) (r : LCGNoise) (hv : v < 4294967296)
    (k : Nat) (hk : 1 ≤ k) (hlow : (k - 1) * S + T < v) (hhigh : v ≤ T + k * S) :
    (∀ j, 1 ≤ j → j < k →
      nthValue FilteredNoise.call (FilteredNoise.mk S r v T (-1)) j > T ∧
      (advances FilteredNoise.call (FilteredNoise.mk S r v T (-1)) j).direction = -1 ∧
      (advances FilteredNoise.call (FilteredNoise.mk S r v T (-1)) j).target = T) ∧
    nthValue FilteredNoise.call (FilteredNoise.mk S r v T (-1)) k = T ∧
    (advances FilteredNoise.call (FilteredNoise.mk S r v T (-1)) k).value = T ∧
    (advances FilteredNoise.call (FilteredNoise.mk S r v T (-1)) k).direction = 1 := by
  have hfit : ∀ j, j < k → j * S + T < v := by
    intro j hjk
    have h1 : j * S ≤ (k - 1) * S := Nat.mul_le_mul_right S (by omega)
    omega
  have hnth : ∀ n, nthValue FilteredNoise.call (FilteredNoise.mk S r v T (-1)) (n + 1) =
      ((advances FilteredNoise.call (FilteredNoise.mk S r v T (-1)) n).call).2 := by
    intro n
    unfold nthValue advances
    rw [Nat.add_sub_cancel]
  have hadv : ∀ n, advances FilteredNoise.call (FilteredNoise.mk S r v T (-1)) (n + 1) =
      ((advances FilteredNoise.call (FilteredNoise.mk S r v T (-1)) n).call).1 := by
    intro n
    unfold advances
    rw [Function.iterate_succ_apply']
  refine ⟨?_, ?_⟩
  · intro j hj1 hjk
    obtain ⟨i, rfl⟩ : ∃ i, j = i + 1 := ⟨j - 1, by omega⟩
    have hsucc : (i + 1) * S = i * S + S := Nat.succ_mul i S
    have hi := hfit i (by omega)
    have hi1 := hfit (i + 1) hjk
    have hstep := FilteredNoise.call_descend S (v - i * S) T r (by omega) (by omega)
    rw [hnth, FilteredNoise.advances_descend S v T r hv (i + 1) hi1,
      FilteredNoise.advances_descend S v T r hv i hi, hstep.2]
    refine ⟨?_, rfl, rfl⟩
    show T < v - i * S - S
    omega
  · obtain ⟨i, rfl⟩ : ∃ i, k = i + 1 := ⟨k - 1, by omega⟩
    have hsucc : (i + 1) * S = i * S + S := Nat.succ_mul i S
    have hi : i * S + T < v := by
      have := hlow
      rw [Nat.add_sub_cancel] at this
      exact this
    have hsnap := FilteredNoise.call_snap S (v - i * S) T r (by omega) (by omega)
    rw [hnth, hadv, FilteredNoise.advances_descend S v T r hv i hi]
    exact hsnap

/-- C5: in a descending state (direction -1) with slope `S ≥ 1`, target `T`
and value `v > T`, let `k = ⌈(v - T) / S⌉` (the number with
`(k - 1) * S < v - T ≤ k * S`).  Each of the calls `1 .. k - 1` returns a value
strictly above `T` and leaves direction -1 and target `T`; call `k` returns
exactly `T`, stores it as the value and flips the direction to +1. -/
theorem FilteredNoise_descent_hits_target (s : FilteredNoise) (hdir : s.direction = -1)
    (hS : 1 ≤ s.slope) (hv : s.value < 2 ^ 32) (hT : s.target < s.value) :
    (1 ≤ (s.value - s.target + s.slope - 1) / s.slope ∧
      ((s.value - s.target + s.slope - 1) / s.slope - 1) * s.slope < s.value - s.target ∧
      s.value - s.target ≤ (s.value - s.target + s.slope - 1) / s.slope * s.slope) ∧
    (∀ j, 1 ≤ j → j < (s.value - s.target + s.slope - 1) / s.slope →
      nthValue FilteredNoise.call s j > s.target ∧
      (advances FilteredNoise.call s j).direction = -1 ∧
      (advances FilteredNoise.call s j).target = s.target) ∧
    nthValue FilteredNoise.call s ((s.value - s.target + s.slope - 1) / s.slope) = s.target ∧
    (advances FilteredNoise.call s ((s.value - s.target + s.slope - 1) / s.slope)).value =
      s.target ∧
    (advances FilteredNoise.call s ((s.value - s.target + s.slope - 1) / s.slope)).direction =
      1 := by
  obtain ⟨S, r, v, T, d⟩ := s
  have hd : d = -1 := hdir
  subst hd
  have hS2 : 1 ≤ S := hS
  have hv2 : v < 4294967296 := by
    have : v < 2 ^ 32 := hv
    norm_num at this
    exact this
  have hT2 : T < v := hT
  show (1 ≤ (v - T + S - 1) / S ∧ ((v - T + S - 1) / S - 1) * S < v - T ∧
      v - T ≤ (v - T + S - 1) / S * S) ∧ _
  have hk1 : (v - T + S - 1) / S * S ≤ v - T + S - 1 := Nat.div_mul_le_self _ _
  have hk2 : v - T + S - 1 < (v - T + S - 1) / S * S + S := Nat.lt_div_mul_add (by omega)
  generalize (v - T + S - 1) / S = k at hk1 hk2 ⊢
  have hkpos : 1 ≤ k := by
    rcases Nat.eq_zero_or_pos k with h0 | h0
    · subst h0
      rw [Nat.zero_mul] at hk2
      omega
    · exact h0
  have hpred : (k - 1) * S = k * S - S := Nat.sub_one_mul k S
  have hle : S ≤ k * S := Nat.le_mul_of_pos_left S hkpos
  refine ⟨⟨hkpos, by omega, by omega⟩, ?_⟩
  exact FilteredNoise.descent_aux S v T r hv2 k hkpos (by omega) (by omega)

/-- Witness of `FilteredNoise_descent_hits_target`: slope 3, value 10, target 2,
so `k = 3`; the third call returns 2 and the direction becomes +1. -/
theorem FilteredNoise_descent_hits_target_witness :
    ((2 : Nat) < 10 ∧ (1 : Nat) ≤ 3) ∧
    nthValue FilteredNoise.call (FilteredNoise.mk 3 (LCGNoise.mk 12345) 10 2 (-1)) 3 = 2 ∧
    (advances FilteredNoise.call (FilteredNoise.mk 3 (LCGNoise.mk 12345) 10 2 (-1)) 3).direction
      = 1 :=
  ⟨by decide,
    (FilteredNoise_descent_hits_target (FilteredNoise.mk 3 (LCGNoise.mk 12345) 10 2 (-1)) rfl
      (by decide) (by decide) (by decide)).2.2.1,
    (FilteredNoise_descent_hits_target (FilteredNoise.mk 3 (LCGNoise.mk 12345) 10 2 (-1)) rfl
      (by decide) (by decide) (by decide)).2.2.2.2⟩

/-! ### Buffer filters -/

/-- A `uint32_t` accumulation loop computes the sum modulo `2^32`. -/
theorem foldl_add_mod (f : Nat → Nat) (l : List Nat) (a : Nat) (ha : a < 4294967296) :
    l.foldl (fun average i => (average + f i) % 4294967296) a =
      (a + (l.map f).sum) % 4294967296 := by
  induction l generalizing a with
  | nil =>
    rw [List.foldl_nil, List.map_nil, List.sum_nil, Nat.add_zero, Nat.mod_eq_of_lt ha]
  | cons x xs ih =>
    rw [List.foldl_cons, ih _ (Nat.mod_lt _ (by norm_num)), List.map_cons, List.sum_cons]
    omega

/-- A sum of `n` terms each at most `c` is at most `n * c`. -/
theorem sum_range_le (f : Nat → Nat) (c : Nat) (n : Nat) (h : ∀ i, i < n → f i ≤ c) :
    ((List.range n).map f).sum ≤ n * c := by
  induction n with
  | zero => simp
  | succ n ih =>
    rw [List.range_succ, List.map_append, List.sum_append, List.map_singleton,
      List.sum_singleton, Nat.succ_mul]
    have h1 := ih (fun i hi => h i (Nat.lt_succ_of_lt hi))
    have h2 := h n (Nat.lt_succ_self n)
    omega

/-- The per-term quotients of `n` slots bounded by `M` sum to at most `M`. -/
theorem sum_div_le (buf : Nat → Nat) (n M : Nat) (h : ∀ i, i < n → buf i ≤ M) :
    ((List.range n).map (fun i => buf i / n)).sum ≤ M := by
  have h1 := sum_range_le (fun i => buf i / n) (M / n) n
    (fun i hi => Nat.div_le_div_right (h i hi))
  exact le_trans h1 (Nat.mul_div_le M n)

/-- The averaging loop over `uint32_t` slots never wraps: it returns the sum
over the first `n` slots of `slot / n`. -/
theorem average_loop_eq (buf : Nat → Nat) (n : Nat)
    (h : ∀ i, i < n → buf i < 4294967296) :
    (List.range n).foldl (fun average i => (average + buf i / n) % 4294967296) 0 =
      ((List.range n).map (fun i => buf i / n)).sum := by
  rw [foldl_add_mod (fun i => buf i / n) (List.range n) 0 (by norm_num), Nat.zero_add]
  apply Nat.mod_eq_of_lt
  have := sum_div_le buf n 4294967295 (fun i hi => by have := h i hi; omega)
  omega

/-- A call of `AverageBufferFilter` inside the capacity: the state it leaves
and the value it returns. -/
theorem AverageBufferFilter.call_eq (s : AverageBufferFilter) (value : Nat)
    (h1 : 1 ≤ s.size) (h2 : s.size ≤ 128) (hi : s.index < 128) :
    s.call value =
      some (AverageBufferFilter.mk s.max_size s.size ((s.index + 1) % s.size)
          (fun j => if j = s.index then value else s.buffer j),
        AverageBufferFilter.buffer_average
          (AverageBufferFilter.mk s.max_size s.size ((s.index + 1) % s.size)
            (fun j => if j = s.index then value else s.buffer j))) := by
  unfold AverageBufferFilter.call
  exact if_pos ⟨hi, h1, h2⟩

/-- C6: for a window size in [1,128], a cursor inside the capacity and
`uint32_t` slots and input, `AverageBufferFilter` returns the sum over the
first `size` slots, read after the write, of `slot / size` with the integer
division applied to each term; with size 4 and slots [4,4,4,4] the result
is 4. -/
theorem AverageBufferFilter_returns_term_sum (s : AverageBufferFilter) (value : Nat)
    (h1 : 1 ≤ s.size) (h2 : s.size ≤ 128) (hi : s.index < 128) (hv : value < 2 ^ 32)
    (hb : ∀ i, i < 128 → s.buffer i < 2 ^ 32) :
    (s.call value).map Prod.snd =
      some (((List.range s.size).map
        (fun i => (if i = s.index then value else s.buffer i) / s.size)).sum) ∧
    (AverageBufferFilter.call (AverageBufferFilter.mk 128 4 3 (fun _ => 4)) 4).map Prod.snd =
      some 4 := by
  constructor
  · rw [AverageBufferFilter.call_eq s value h1 h2 hi, Option.map_some']
    apply congrArg some
    show AverageBufferFilter.buffer_average _ = _
    unfold AverageBufferFilter.buffer_average
    apply average_loop_eq (fun i => if i = s.index then value else s.buffer i) s.size
    intro i hlt
    have hv2 : value < 4294967296 := by norm_num at hv; exact hv
    have hb2 : s.buffer i < 4294967296 := by
      have := hb i (by omega)
      norm_num at this
      exact this
    show (if i = s.index then value else s.buffer i) < 4294967296
    split
    · exact hv2
    · exact hb2
  · decide

/-- Witness of `AverageBufferFilter_returns_term_sum`: size 4, cursor 1, slots
all 6, input 9; the result is `6/4 + 9/4 + 6/4 + 6/4 = 5`. -/
theorem AverageBufferFilter_returns_term_sum_witness :
    (AverageBufferFilter.call (AverageBufferFilter.mk 128 4 1 (fun _ => 6)) 9).map Prod.snd =
      some 5 :=
  (AverageBufferFilter_returns_term_sum (AverageBufferFilter.mk 128 4 1 (fun _ => 6)) 9
    (by decide) (by decide) (by decide) (by decide)
    (fun _ _ => (show (6 : Nat) < 2 ^ 32 by decide))).1.trans (by decide)

/-- C7 (as stated, refuted): with window size 4 and cursor 3 the call leaves
the cursor at 0, whereas `(3 + 1) mod 128` is 4. -/
theorem AverageBufferFilter_cursor_not_mod_capacity :
    (AverageBufferFilter.call (AverageBufferFilter.mk 128 4 3 (fun _ => 0)) 7).map
        (fun p => p.1.index) = some 0 ∧
    (AverageBufferFilter.call (AverageBufferFilter.mk 128 4 3 (fun _ => 0)) 7).map
        (fun p => p.1.index) ≠ some ((3 + 1) % 128) := by
  constructor <;> decide

/-- C7 (amended): on every call with window size in [1,128] and cursor inside
the capacity, `AverageBufferFilter` writes the incoming value at the current
cursor, leaves every other slot and the sizes unchanged, and advances the
cursor to `(cursor + 1)` modulo the window size `size`, so the new cursor is
below `size`. -/
theorem AverageBufferFilter_cursor_mod_size (s : AverageBufferFilter) (value : Nat)
    (h1 : 1 ≤ s.size) (h2 : s.size ≤ 128) (hi : s.index < 128) :
    ∃ s1 r, s.call value = some (s1, r) ∧
      s1.buffer s.index = value ∧
      (∀ j, j ≠ s.index → s1.buffer j = s.buffer j) ∧
      s1.index = (s.index + 1) % s.size ∧ s1.index < s.size ∧
      s1.size = s.size ∧ s1.max_size = s.max_size := by
  refine ⟨_, _, AverageBufferFilter.call_eq s value h1 h2 hi, ?_, ?_, rfl, ?_, rfl, rfl⟩
  · show (if s.index = s.index then value else s.buffer s.index) = value
    rw [if_pos rfl]
  · intro j hj
    show (if j = s.index then value else s.buffer j) = s.buffer j
    rw [if_neg hj]
  · show (s.index + 1) % s.size < s.size
    exact Nat.mod_lt _ h1

/-- Witness of `AverageBufferFilter_cursor_mod_size`: size 4, cursor 3. -/
theorem AverageBufferFilter_cursor_mod_size_witness :
    ∃ s1 r, AverageBufferFilter.call (AverageBufferFilter.mk 128 4 3 (fun _ => 0)) 7 =
        some (s1, r) ∧ s1.index = (3 + 1) % 4 :=
  (AverageBufferFilter_cursor_mod_size (AverageBufferFilter.mk 128 4 3 (fun _ => 0)) 7
    (by decide) (by decide) (by decide)).elim
    (fun s1 h => h.elim (fun r hr => ⟨s1, r, hr.1, hr.2.2.2.1⟩))

/-- C8: for a window size in [1,128] and `uint32_t` slots, if each of the
first `size` slots is at most `M` then `buffer_average` (the value a call of
`AverageBufferFilter` returns) equals the sum of `slot / size` over unbounded
naturals, so the 32-bit accumulator never wraps, and it is at most `M`; the
same holds of `ConvoluationFilter::convolve` with its size 128. -/
theorem buffer_average_le_max (s : AverageBufferFilter) (c : ConvoluationFilter) (M : Nat)
    (h1 : 1 ≤ s.size) (h2 : s.size ≤ 128)
    (hs : ∀ i, i < s.size → s.buffer i < 2 ^ 32) (hsM : ∀ i, i < s.size → s.buffer i ≤ M)
    (hc : c.size = 128)
    (hcb : ∀ i, i < 128 → c.buffer i < 2 ^ 32) (hcM : ∀ i, i < 128 → c.buffer i ≤ M) :
    (s.buffer_average = ((List.range s.size).map (fun i => s.buffer i / s.size)).sum ∧
      s.buffer_average ≤ M ∧
      ∀ v s1 r, s.call v = some (s1, r) → r = s1.buffer_average) ∧
    (c.convolve = ((List.range 128).map (fun i => c.buffer i / 128)).sum ∧
      c.convolve ≤ M ∧
      ∀ v c1 r, c.call v = some (c1, r) → r = c1.convolve) := by
  have e1 : s.buffer_average =
      ((List.range s.size).map (fun i => s.buffer i / s.size)).sum := by
    unfold AverageBufferFilter.buffer_average
    apply average_loop_eq
    intro i hlt
    have := hs i hlt
    norm_num at this
    exact this
  have e2 : c.convolve = ((List.range 128).map (fun i => c.buffer i / 128)).sum := by
    unfold ConvoluationFilter.convolve
    rw [hc]
    apply average_loop_eq
    intro i hlt
    have := hcb i hlt
    norm_num at this
    exact this
  refine ⟨⟨e1, ?_, ?_⟩, e2, ?_, ?_⟩
  · rw [e1]
    exact sum_div_le s.buffer s.size M hsM
  · intro v s1 r hcall
    by_cases hi : s.index < 128
    · rw [AverageBufferFilter.call_eq s v h1 h2 hi] at hcall
      obtain ⟨hA, hr⟩ := Prod.mk.inj (Option.some.inj hcall)
      rw [← hr, ← hA]
    · unfold AverageBufferFilter.call at hcall
      rw [if_neg (fun h => hi h.1)] at hcall
      exact absurd hcall (by simp)
  · rw [e2]
    exact sum_div_le c.buffer 128 M hcM
  · intro v c1 r hcall
    unfold ConvoluationFilter.call at hcall
    by_cases hi : c.index < 128
    · rw [if_pos ⟨hi, by omega, by omega⟩] at hcall
      obtain ⟨hA, hr⟩ := Prod.mk.inj (Option.some.inj hcall)
      rw [← hr, ← hA]
    · rw [if_neg (fun h => hi h.1)] at hcall
      exact absurd hcall (by simp)

/-- Witness of `buffer_average_le_max`: size 4 with slots all 7 and a
convolution buffer of slots all 300, bound 300. -/
theorem buffer_average_le_max_witness :
    AverageBufferFilter.buffer_average (AverageBufferFilter.mk 128 4 0 (fun _ => 7)) ≤ 300 ∧
    ConvoluationFilter.convolve (ConvoluationFilter.mk 128 0 (fun _ => 300) (fun _ => 0)) ≤ 300 :=
  ⟨(buffer_average_le_max (AverageBufferFilter.mk 128 4 0 (fun _ => 7))
      (ConvoluationFilter.mk 128 0 (fun _ => 300) (fun _ => 0)) 300 (by decide) (by decide)
      (fun _ _ => (show (7 : Nat) < 2 ^ 32 by decide)) (fun _ _ => (show (7 : Nat) ≤ 300 by decide))
      rfl (fun _ _ => (show (300 : Nat) < 2 ^ 32 by decide))
      (fun _ _ => (show (300 : Nat) ≤ 300 by decide))).1.2.1,
    (buffer_average_le_max (AverageBufferFilter.mk 128 4 0 (fun _ => 7))
      (ConvoluationFilter.mk 128 0 (fun _ => 300) (fun _ => 0)) 300 (by decide) (by decide)
      (fun _ _ => (show (7 : Nat) < 2 ^ 32 by decide)) (fun _ _ => (show (7 : Nat) ≤ 300 by decide))
      rfl (fun _ _ => (show (300 : Nat) < 2 ^ 32 by decide))
      (fun _ _ => (show (300 : Nat) ≤ 300 by decide))).2.2.1⟩

/-! ### Encoder and button handlers -/

/-- The clamp of the window size always lands in [1,128], whatever the delta. -/
theorem INPUT_STEP_CONSTRAIN_uint8_range (value : Nat) (direction : Int) :
    1 ≤ INPUT_STEP_CONSTRAIN_uint8 value direction 1 1 128 ∧
    INPUT_STEP_CONSTRAIN_uint8 value direction 1 1 128 ≤ 128 := by
  unfold INPUT_STEP_CONSTRAIN_uint8 toU8
  dsimp only
  split
  · constructor <;> norm_num
  · split
    · constructor <;> norm_num
    · constructor <;> omega

/-- The clamp of the window size for a delta that does not leave `0 .. 255`. -/
theorem INPUT_STEP_CONSTRAIN_uint8_eq (value : Nat) (direction : Int)
    (h0 : 0 ≤ (value : Int) + direction) (h1 : (value : Int) + direction ≤ 255) :
    (INPUT_STEP_CONSTRAIN_uint8 value direction 1 1 128 : Int) =
      min 128 (max 1 ((value : Int) + direction)) := by
  unfold INPUT_STEP_CONSTRAIN_uint8 toU8
  dsimp only
  split
  · norm_num
    omega
  · split
    · norm_num
      omega
    · omega

/-- What `OnEncoderMove` does to the members of the average filter and to the
edit mode. -/
theorem Noise.OnEncoderMove_avg {F D : Type} (fl : FloatOps F) (db : FloatOps D) (s : Noise D)
    (direction : Int) :
    (s.OnEncoderMove fl db direction).avg_filt.size =
      INPUT_STEP_CONSTRAIN_uint8 s.avg_filt.size direction 1 1 s.avg_filt.max_size ∧
    (s.OnEncoderMove fl db direction).avg_filt.max_size = s.avg_filt.max_size ∧
    (s.OnEncoderMove fl db direction).avg_filt.index = s.avg_filt.index ∧
    (s.OnEncoderMove fl db direction).avg_filt.buffer = s.avg_filt.buffer ∧
    (s.OnEncoderMove fl db direction).mode = s.mode :=
  ⟨rfl, rfl, rfl, rfl, rfl⟩

/-- One encoder move by -1 or +1 on a window size in [1,128]. -/
theorem Noise.OnEncoderMove_unit {F D : Type} (fl : FloatOps F) (db : FloatOps D) (s : Noise D)
    (hmax : s.avg_filt.max_size = 128) (h1 : 1 ≤ s.avg_filt.size)
    (h2 : s.avg_filt.size ≤ 128) :
    (s.OnEncoderMove fl db (-1)).avg_filt.size = max 1 (s.avg_filt.size - 1) ∧
    (s.OnEncoderMove fl db 1).avg_filt.size = min 128 (s.avg_filt.size + 1) := by
  have ha := (Noise.OnEncoderMove_avg fl db s (-1)).1
  have hb := (Noise.OnEncoderMove_avg fl db s 1).1
  have hcast : ((128 : Nat) : Int) = 128 := rfl
  rw [hmax, hcast] at ha hb
  have hc := INPUT_STEP_CONSTRAIN_uint8_eq s.avg_filt.size (-1) (by omega) (by omega)
  have hd := INPUT_STEP_CONSTRAIN_uint8_eq s.avg_filt.size 1 (by omega) (by omega)
  rw [ha, hb]
  constructor <;> omega

/-- C9: for a moving-average size `s` in [1,128] (capacity member `max_size`
at its value 128), `OnEncoderMove` with delta -1 sets the size to
`max(1, s - 1)` and with delta +1 to `min(128, s + 1)`; hence any number of -1
moves from size 1 leaves the size at 1 and any number of +1 moves from size
128 leaves it at 128. -/
theorem OnEncoderMove_size_pinned {F D : Type} (fl : FloatOps F) (db : FloatOps D)
    (s : Noise D) (hmax : s.avg_filt.max_size = 128) (h1 : 1 ≤ s.avg_filt.size)
    (h2 : s.avg_filt.size ≤ 128) :
    (s.OnEncoderMove fl db (-1)).avg_filt.size = max 1 (s.avg_filt.size - 1) ∧
    (s.OnEncoderMove fl db 1).avg_filt.size = min 128 (s.avg_filt.size + 1) ∧
    (s.avg_filt.size = 1 →
      ∀ n, ((fun t => Noise.OnEncoderMove fl db t (-1))^[n] s).avg_filt.size = 1) ∧
    (s.avg_filt.size = 128 →
      ∀ n, ((fun t => Noise.OnEncoderMove fl db t 1)^[n] s).avg_filt.size = 128) := by
  refine ⟨(Noise.OnEncoderMove_unit fl db s hmax h1 h2).1,
    (Noise.OnEncoderMove_unit fl db s hmax h1 h2).2, ?_, ?_⟩
  · intro hs n
    have key : ((fun t => Noise.OnEncoderMove fl db t (-1))^[n] s).avg_filt.max_size = 128 ∧
        ((fun t => Noise.OnEncoderMove fl db t (-1))^[n] s).avg_filt.size = 1 := by
      induction n with
      | zero => exact ⟨hmax, hs⟩
      | succ n ih =>
        rw [Function.iterate_succ_apply']
        have hstep := (Noise.OnEncoderMove_unit fl db _ ih.1 (by omega) (by omega)).1
        have hm := (Noise.OnEncoderMove_avg fl db
          ((fun t => Noise.OnEncoderMove fl db t (-1))^[n] s) (-1)).2.1
        refine ⟨hm.trans ih.1, ?_⟩
        rw [hstep, ih.2]
        rfl
    exact key.2
  · intro hs n
    have key : ((fun t => Noise.OnEncoderMove fl db t 1)^[n] s).avg_filt.max_size = 128 ∧
        ((fun t => Noise.OnEncoderMove fl db t 1)^[n] s).avg_filt.size = 128 := by
      induction n with
      | zero => exact ⟨hmax, hs⟩
      | succ n ih =>
        rw [Function.iterate_succ_apply']
        have hstep := (Noise.OnEncoderMove_unit fl db _ ih.1 (by omega) (by omega)).2
        have hm := (Noise.OnEncoderMove_avg fl db
          ((fun t => Noise.OnEncoderMove fl db t 1)^[n] s) 1).2.1
        refine ⟨hm.trans ih.1, ?_⟩
        rw [hstep, ih.2]
        rfl
    exact key.2

/-- Witness of `OnEncoderMove_size_pinned`: from size 1, 200 moves by -1 leave
the size at 1. -/
theorem OnEncoderMove_size_pinned_witness :
    ((fun t => Noise.OnEncoderMove ratOps ratOps t (-1))^[200] (Noise.sample 0 1)).avg_filt.size
      = 1 :=
  (OnEncoderMove_size_pinned ratOps ratOps (Noise.sample 0 1) rfl (Nat.le_refl 1)
    (by decide)).2.2.1 rfl 200

/-- The mode after a button press, for the two modes. -/
theorem Noise.OnButtonPress_mode {D : Type} (s : Noise D) :
    (s.mode = 0 → (s.OnButtonPress).mode = 1) ∧ (s.mode = 1 → (s.OnButtonPress).mode = 0) := by
  constructor
  · intro h
    show Int.tmod (s.mode + 1) 2 = 1
    rw [h]
    rfl
  · intro h
    show Int.tmod (s.mode + 1) 2 = 0
    rw [h]
    rfl

/-- The modes after the button presses of a sequence of events only depend on
the starting mode and on the button presses. -/
theorem Noise.buttonModes_filter {F D : Type} (fl : FloatOps F) (db : FloatOps D)
    (events : List Event) (s t : Noise D) (h : s.mode = t.mode) :
    Noise.buttonModes fl db s events =
      Noise.buttonModes fl db t (events.filter Event.isButton) := by
  induction events generalizing s t with
  | nil => rfl
  | cons e es ih =>
    cases e with
    | button =>
      have hm : (s.OnButtonPress).mode = (t.OnButtonPress).mode := by
        show Int.tmod (s.mode + 1) 2 = Int.tmod (t.mode + 1) 2
        rw [h]
      show (s.OnButtonPress).mode :: Noise.buttonModes fl db s.OnButtonPress es =
        (t.OnButtonPress).mode ::
          Noise.buttonModes fl db t.OnButtonPress (es.filter Event.isButton)
      rw [hm, ih s.OnButtonPress t.OnButtonPress hm]
    | encoder d =>
      show Noise.buttonModes fl db (s.OnEncoderMove fl db d) es =
        Noise.buttonModes fl db t (es.filter Event.isButton)
      exact ih (s.OnEncoderMove fl db d) t
        ((Noise.OnEncoderMove_avg fl db s d).2.2.2.2.trans h)

/-- Four button presses from mode 0 give the modes 1, 0, 1, 0. -/
theorem Noise.buttonModes_four {F D : Type} (fl : FloatOps F) (db : FloatOps D) (s : Noise D)
    (h : s.mode = 0) :
    Noise.buttonModes fl db s [Event.button, Event.button, Event.button, Event.button] =
      [1, 0, 1, 0] := by
  have h1 := (Noise.OnButtonPress_mode s).1 h
  have h2 := (Noise.OnButtonPress_mode s.OnButtonPress).2 h1
  have h3 := (Noise.OnButtonPress_mode s.OnButtonPress.OnButtonPress).1 h2
  have h4 := (Noise.OnButtonPress_mode s.OnButtonPress.OnButtonPress.OnButtonPress).2 h3
  show [(s.OnButtonPress).mode, (s.OnButtonPress.OnButtonPress).mode,
    (s.OnButtonPress.OnButtonPress.OnButtonPress).mode,
    (s.OnButtonPress.OnButtonPress.OnButtonPress.OnButtonPress).mode] = [1, 0, 1, 0]
  rw [h1, h2, h3, h4]

/-- C10: `OnButtonPress` maps mode 0 to 1 and mode 1 to 0, which is
`(mode + 1) mod 2` and stays in {0,1}; four presses from mode 0 give the modes
1, 0, 1, 0; `OnEncoderMove` leaves the mode unchanged for every delta, so the
modes seen after the button presses of any sequence of events are those of
its button presses alone, and any interleaving of encoder moves with four
presses from mode 0 still gives 1, 0, 1, 0. -/
theorem mode_toggle_independent_of_encoder {F D : Type} (fl : FloatOps F) (db : FloatOps D)
    (s : Noise D) :
    (s.mode = 0 → (s.OnButtonPress).mode = 1) ∧
    (s.mode = 1 → (s.OnButtonPress).mode = 0) ∧
    ((s.mode = 0 ∨ s.mode = 1) →
      (s.OnButtonPress).mode = (s.mode + 1) % 2 ∧
      ((s.OnButtonPress).mode = 0 ∨ (s.OnButtonPress).mode = 1)) ∧
    (s.mode = 0 →
      Noise.buttonModes fl db s [Event.button, Event.button, Event.button, Event.button] =
        [1, 0, 1, 0]) ∧
    (∀ d, (s.OnEncoderMove fl db d).mode = s.mode) ∧
    (∀ events, Noise.buttonModes fl db s events =
      Noise.buttonModes fl db s (events.filter Event.isButton)) ∧
    (s.mode = 0 → ∀ events,
      events.filter Event.isButton =
        [Event.button, Event.button, Event.button, Event.button] →
      Noise.buttonModes fl db s events = [1, 0, 1, 0]) := by
  refine ⟨(Noise.OnButtonPress_mode s).1, (Noise.OnButtonPress_mode s).2, ?_,
    Noise.buttonModes_four fl db s, fun d => (Noise.OnEncoderMove_avg fl db s d).2.2.2.2,
    fun events => Noise.buttonModes_filter fl db events s s rfl, ?_⟩
  · rintro (h | h)
    · rw [(Noise.OnButtonPress_mode s).1 h, h]
      exact ⟨rfl, Or.inr rfl⟩
    · rw [(Noise.OnButtonPress_mode s).2 h, h]
      exact ⟨rfl, Or.inl rfl⟩
  · intro h events hev
    rw [Noise.buttonModes_filter fl db events s s rfl, hev]
    exact Noise.buttonModes_four fl db s h

/-- Witness of `mode_toggle_independent_of_encoder`: four presses interleaved
with encoder moves, from mode 0. -/
theorem mode_toggle_independent_of_encoder_witness :
    Noise.buttonModes ratOps ratOps (Noise.sample 0 64)
      [Event.button, Event.encoder 3, Event.button, Event.button, Event.encoder (-1),
        Event.button] = [1, 0, 1, 0] :=
  (mode_toggle_independent_of_encoder ratOps ratOps (Noise.sample 0 64)).2.2.2.2.2.2 rfl
    [Event.button, Event.encoder 3, Event.button, Event.button, Event.encoder (-1),
      Event.button] rfl

/-- In edit mode 1 `OnEncoderMove` passes the resonance through the macro with
step `0.00`, minimum `0.01` and maximum `0.99`, and keeps the coefficient. -/
theorem Noise.OnEncoderMove_ladder_mode1 {F D : Type} (fl : FloatOps F) (db : FloatOps D)
    (s : Noise D) (d : Int) (h : s.mode = 1) :
    (s.OnEncoderMove fl db d).ladder_filt.resonance =
      INPUT_STEP_CONSTRAIN_double db s.ladder_filt.resonance d
        (db.ofDecimal 0 2) (db.ofDecimal 1 2) (db.ofDecimal 99 2) ∧
    (s.OnEncoderMove fl db d).ladder_filt.coefficient = s.ladder_filt.coefficient := by
  have h0 : ¬ s.mode = 0 := by rw [h]; decide
  have e : (s.OnEncoderMove fl db d).ladder_filt =
      { s.ladder_filt with
        resonance := INPUT_STEP_CONSTRAIN_double db s.ladder_filt.resonance d
          (db.ofDecimal 0 2) (db.ofDecimal 1 2) (db.ofDecimal 99 2) } := by
    show (if s.mode = 0 then _ else if s.mode = 1 then _ else _) = _
    rw [if_neg h0, if_pos h]
  rw [e]
  exact ⟨rfl, rfl⟩

/-- With a step whose product with the delta adds nothing, the macro only
clamps: a value that is neither below the minimum nor above the maximum is
returned unchanged. -/
theorem INPUT_STEP_CONSTRAIN_double_zero_step {D : Type} (db : FloatOps D) (r : D) (d : Int)
    (step lo hi : D) (hadd : db.add r (db.mul (db.ofInt d) step) = r)
    (hlo : db.lt r lo = false) (hhi : db.lt hi r = false) :
    INPUT_STEP_CONSTRAIN_double db r d step lo hi = r := by
  unfold INPUT_STEP_CONSTRAIN_double
  simp only [hadd, hlo, hhi]
  rfl

/-- C11 (the code at the failing input): in edit mode 1 with resonance 0.5,
an encoder move by +1 and one by -1 both leave the resonance at 0.5, and a
resonance of 0 is raised to 0.01 by either move; the ladder coefficient is
unchanged.  The arithmetic is exact at these inputs. -/
theorem resonance_step_is_zero :
    (Noise.sample 1 64).ladder_filt.resonance = 1 / 2 ∧
    ((Noise.sample 1 64).OnEncoderMove ratOps ratOps 1).ladder_filt.resonance = 1 / 2 ∧
    ((Noise.sample 1 64).OnEncoderMove ratOps ratOps (-1)).ladder_filt.resonance = 1 / 2 ∧
    INPUT_STEP_CONSTRAIN_double ratOps 0 (-1)
      (ratOps.ofDecimal 0 2) (ratOps.ofDecimal 1 2) (ratOps.ofDecimal 99 2) = 1 / 100 ∧
    ((Noise.sample 1 64).OnEncoderMove ratOps ratOps 1).ladder_filt.coefficient =
      (Noise.sample 1 64).ladder_filt.coefficient := by
  have hp := Noise.OnEncoderMove_ladder_mode1 ratOps ratOps (Noise.sample 1 64) 1 rfl
  have hm := Noise.OnEncoderMove_ladder_mode1 ratOps ratOps (Noise.sample 1 64) (-1) rfl
  have hr : (Noise.sample 1 64).ladder_filt.resonance = 1 / 2 := rfl
  refine ⟨hr, ?_, ?_, ?_, hp.2⟩
  · rw [hp.1, hr]
    apply INPUT_STEP_CONSTRAIN_double_zero_step <;> simp [ratOps] <;> norm_num
  · rw [hm.1, hr]
    apply INPUT_STEP_CONSTRAIN_double_zero_step <;> simp [ratOps] <;> norm_num
  · simp [INPUT_STEP_CONSTRAIN_double, ratOps]
    norm_num

/-! ### Scaling and the controller -/

/-- The result of one `Controller` tick when the filter call is inside the
capacity. -/
theorem Noise.Controller_eq {F D : Type} (fl : FloatOps F) (s : Noise D)
    (h1 : 1 ≤ s.avg_filt.size) (h2 : s.avg_filt.size ≤ 128) (hi : s.avg_filt.index < 128) :
    ∃ avg m, s.avg_filt.call (s.lcg_noise.next).2 = some (avg, m) ∧
      Noise.Controller fl s =
        some (Noise.mk s.mode s.lfsr_noise s.xorshift_noise (s.lcg_noise.next).1 s.filt_noise
            avg s.inf_imp_filt s.convolution_filt s.ladder_filt s.encoderVal (s.count + 1),
          Noise.scale fl (s.lcg_noise.next).2 4294967295 32 7680,
          Noise.scale fl m 4294967295 32 7680) := by
  have hcall := AverageBufferFilter.call_eq s.avg_filt (s.lcg_noise.next).2 h1 h2 hi
  refine ⟨_, _, hcall, ?_⟩
  unfold Noise.Controller
  simp only [hcall]
  rfl

/-- C13: for an applet state whose average filter has its size in [1,128] and
its cursor inside the capacity, one `Controller` tick draws exactly one raw
value from the primary LCG (the stored generator is the old one advanced
once), feeds it to the moving-average filter, and emits exactly two outputs:
channel 0 is `scale(raw, 2^32 - 1, 7680)` and channel 1 is
`scale(m, 2^32 - 1, 7680)` with `m` the value the filter returns for `raw`;
two states with the same LCG register and the same average filter emit the
same outputs. -/
theorem Controller_two_outputs {F D : Type} (fl : FloatOps F) (s t : Noise D)
    (h1 : 1 ≤ s.avg_filt.size) (h2 : s.avg_filt.size ≤ 128) (hi : s.avg_filt.index < 128)
    (hl : t.lcg_noise = s.lcg_noise) (ha : t.avg_filt = s.avg_filt) :
    (∃ s1 avg m, s.avg_filt.call (s.lcg_noise.next).2 = some (avg, m) ∧
      Noise.Controller fl s =
        some (s1, Noise.scale fl (s.lcg_noise.next).2 (2 ^ 32 - 1) 32 7680,
          Noise.scale fl m (2 ^ 32 - 1) 32 7680) ∧
      s1.lcg_noise = (s.lcg_noise.next).1 ∧ s1.avg_filt = avg) ∧
    (Noise.Controller fl t).map Prod.snd = (Noise.Controller fl s).map Prod.snd := by
  obtain ⟨avg, m, hcall, hs⟩ := Noise.Controller_eq fl s h1 h2 hi
  obtain ⟨avg2, m2, hcall2, ht⟩ := Noise.Controller_eq fl t (ha ▸ h1) (ha ▸ h2) (ha ▸ hi)
  constructor
  · exact ⟨_, avg, m, hcall, hs, rfl, rfl⟩
  · rw [hl, ha, hcall] at hcall2
    obtain ⟨e1, e2⟩ := Prod.mk.inj (Option.some.inj hcall2)
    rw [hs, ht, hl, ← e2]
    rfl

/-- Witness of `Controller_two_outputs`: the sample state with size 64 emits
3655 on channel 0 and 57 on channel 1 under exact arithmetic. -/
theorem Controller_two_outputs_witness :
    (Noise.Controller ratOps (Noise.sample 1 64)).map Prod.snd =
      (Noise.Controller ratOps (Noise.sample 0 64)).map Prod.snd :=
  (Controller_two_outputs ratOps (Noise.sample 0 64) (Noise.sample 1 64) (by decide)
    (by decide) (by decide) rfl rfl).2

/-- C14 (as stated, refuted): after `Start()` a state with edit mode 1 and
moving-average size 10 still has mode 1 and size 10, not the defaults 0
and 64. -/
theorem Start_does_not_reset :
    (Noise.Start (Noise.sample 1 10)).mode = 1 ∧
    (Noise.Start (Noise.sample 1 10)).avg_filt.size = 10 ∧
    (Noise.Start (Noise.sample 1 10)).mode ≠ 0 ∧
    (Noise.Start (Noise.sample 1 10)).avg_filt.size ≠ 64 := by
  refine ⟨rfl, rfl, ?_, ?_⟩
  · show (1 : Int) ≠ 0
    decide
  · show (10 : Nat) ≠ 64
    decide

/-- C14 (amended): `Start()` changes nothing, so edit mode, moving-average
size, exponential coefficient, ladder coefficient and ladder resonance keep
the values they had before the call; the defaults (mode 0, size 64,
coefficients 0.9, resonance 0.5) are those of the member initialisers, set
when the applet object is constructed. -/
theorem Start_keeps_parameters {F D : Type} (fl : FloatOps F) (db : FloatOps D) (s : Noise D)
    (avgIndex : Nat) (avgBuffer convBuffer convCoefficients : Nat → Nat)
    (out1 out2 out3 out4 : Nat) :
    (Noise.Start s = s ∧
      (Noise.Start s).mode = s.mode ∧
      (Noise.Start s).avg_filt.size = s.avg_filt.size ∧
      (Noise.Start s).inf_imp_filt.coefficient = s.inf_imp_filt.coefficient ∧
      (Noise.Start s).ladder_filt.coefficient = s.ladder_filt.coefficient ∧
      (Noise.Start s).ladder_filt.resonance = s.ladder_filt.resonance) ∧
    ((Noise.construct fl db avgIndex avgBuffer convBuffer convCoefficients
        out1 out2 out3 out4).mode = 0 ∧
      (Noise.construct fl db avgIndex avgBuffer convBuffer convCoefficients
        out1 out2 out3 out4).avg_filt.size = 64 ∧
      (Noise.construct fl db avgIndex avgBuffer convBuffer convCoefficients
        out1 out2 out3 out4).inf_imp_filt.coefficient = db.ofDecimal 9 1 ∧
      (Noise.construct fl db avgIndex avgBuffer convBuffer convCoefficients
        out1 out2 out3 out4).ladder_filt.coefficient = db.ofDecimal 9 1 ∧
      (Noise.construct fl db avgIndex avgBuffer convBuffer convCoefficients
        out1 out2 out3 out4).ladder_filt.resonance = db.ofDecimal 5 1) :=
  ⟨⟨rfl, rfl, rfl, rfl, rfl, rfl⟩, rfl, rfl, rfl, rfl, rfl⟩

/-- C15 (the code at the failing input): with stage output `out4 = 4`,
resonance 0.5 and input 0, the feedback-subtracted input that
`LadderFilter::operator()` converts to `uint32_t` is `0 - 4 * 0.5 = -2`, below
zero.  The arithmetic is exact at this input. -/
theorem ladder_feedback_negative :
    LadderFilter.feedbackInput ratOps (LadderFilter.mk (1 / 2) (9 / 10) 0 0 0 4) 0 = -2 ∧
    ratOps.lt (LadderFilter.feedbackInput ratOps (LadderFilter.mk (1 / 2) (9 / 10) 0 0 0 4) 0)
      (ratOps.ofInt 0) = true := by
  have h : LadderFilter.feedbackInput ratOps (LadderFilter.mk (1 / 2) (9 / 10) 0 0 0 4) 0 =
      -2 := by
    simp only [LadderFilter.feedbackInput, ratOps]
    norm_num
  refine ⟨h, ?_⟩
  rw [h]
  simp [ratOps]

/-- C18 (the code at the failing input): at size 1 the delta -2 makes the
`uint8_t` temporary of the macro wrap to 255, which is clamped to the maximum:
the size becomes 128, where the saturated value `min(128, max(1, 1 - 2))`
is 1. -/
theorem encoder_delta_wraps :
    INPUT_STEP_CONSTRAIN_uint8 1 (-2) 1 1 128 = 128 ∧
    ((Noise.sample 0 1).OnEncoderMove ratOps ratOps (-2)).avg_filt.size = 128 ∧
    min (128 : Int) (max 1 (1 + -2)) = 1 := by
  have h : INPUT_STEP_CONSTRAIN_uint8 1 (-2) 1 1 128 = 128 := by
    simp [INPUT_STEP_CONSTRAIN_uint8, toU8]
  refine ⟨h, ?_, by decide⟩
  rw [(Noise.OnEncoderMove_avg ratOps ratOps (Noise.sample 0 1) (-2)).1]
  exact h

/-- A call inside the capacity is defined, keeps the sizes and leaves the
cursor below the window size. -/
theorem AverageBufferFilter.call_defined (s : AverageBufferFilter) (value : Nat)
    (h1 : 1 ≤ s.size) (h2 : s.size ≤ 128) (hi : s.index < 128) :
    ∃ avg r, s.call value = some (avg, r) ∧ avg.max_size = s.max_size ∧
      avg.size = s.size ∧ avg.index < avg.size :=
  ⟨_, _, AverageBufferFilter.call_eq s value h1 h2 hi, rfl, rfl, Nat.mod_lt _ h1⟩

/-- A filter call that is defined replaces the average filter of the applet. -/
theorem Noise.applyAvg_call {F D : Type} (fl : FloatOps F) (db : FloatOps D) (s : Noise D)
    (value : Nat) (avg : AverageBufferFilter) (r : Nat)
    (h : s.avg_filt.call value = some (avg, r)) :
    Noise.applyAvg fl db s (AvgEvent.call value) = some { s with avg_filt := avg } := by
  unfold Noise.applyAvg
  simp only [h]

/-- C17: from a state with moving-average size in [1,128] and write cursor
below 128 (capacity member `max_size` at its value 128), every sequence of
filter calls and encoder moves with arbitrary signed deltas runs without an
out-of-capacity access or a modulo by zero, and ends in a state with size in
[1,128] and cursor below 128. -/
theorem avg_filter_stays_in_capacity {F D : Type} (fl : FloatOps F) (db : FloatOps D)
    (events : List AvgEvent) (s : Noise D) (hmax : s.avg_filt.max_size = 128)
    (h1 : 1 ≤ s.avg_filt.size) (h2 : s.avg_filt.size ≤ 128) (hi : s.avg_filt.index < 128) :
    ∃ s1, Noise.runAvg fl db s events = some s1 ∧ s1.avg_filt.max_size = 128 ∧
      1 ≤ s1.avg_filt.size ∧ s1.avg_filt.size ≤ 128 ∧ s1.avg_filt.index < 128 := by
  induction events generalizing s with
  | nil => exact ⟨s, rfl, hmax, h1, h2, hi⟩
  | cons e es ih =>
    cases e with
    | call value =>
      obtain ⟨avg, r, hcall, hmx, hsz, hidx⟩ :=
        AverageBufferFilter.call_defined s.avg_filt value h1 h2 hi
      have hstep := Noise.applyAvg_call fl db s value avg r hcall
      obtain ⟨s1, hrun, hs1⟩ := ih { s with avg_filt := avg } (hmx.trans hmax)
        (by rw [hsz]; exact h1) (by rw [hsz]; exact h2)
        (lt_of_lt_of_le hidx (by rw [hsz]; exact h2))
      refine ⟨s1, ?_, hs1⟩
      show (match Noise.applyAvg fl db s (AvgEvent.call value) with
        | none => none
        | some s1 => Noise.runAvg fl db s1 es) = some s1
      rw [hstep]
      exact hrun
    | encoder d =>
      have hm := Noise.OnEncoderMove_avg fl db s d
      have hr := INPUT_STEP_CONSTRAIN_uint8_range s.avg_filt.size d
      have hcast : ((128 : Nat) : Int) = 128 := rfl
      have hsize : (s.OnEncoderMove fl db d).avg_filt.size =
          INPUT_STEP_CONSTRAIN_uint8 s.avg_filt.size d 1 1 128 := by
        rw [hm.1, hmax, hcast]
      obtain ⟨s1, hrun, hs1⟩ := ih (s.OnEncoderMove fl db d) (hm.2.1.trans hmax)
        (hsize ▸ hr.1) (hsize ▸ hr.2) (hm.2.2.1 ▸ hi)
      exact ⟨s1, hrun, hs1⟩

/-- Witness of `avg_filter_stays_in_capacity`: the size is reduced from 64 by
a delta of -60 and by a delta of -200, with calls in between. -/
theorem avg_filter_stays_in_capacity_witness :
    ∃ s1, Noise.runAvg ratOps ratOps (Noise.sample 0 64)
        [AvgEvent.call 5, AvgEvent.encoder (-60), AvgEvent.call 7, AvgEvent.encoder (-200),
          AvgEvent.call 9] = some s1 ∧
      s1.avg_filt.max_size = 128 ∧ 1 ≤ s1.avg_filt.size ∧ s1.avg_filt.size ≤ 128 ∧
      s1.avg_filt.index < 128 :=
  avg_filter_stays_in_capacity ratOps ratOps
    [AvgEvent.call 5, AvgEvent.encoder (-60), AvgEvent.call 7, AvgEvent.encoder (-200),
      AvgEvent.call 9] (Noise.sample 0 64) rfl (by decide) (by decide) (by decide)

/-! ### Reachable states of the target-seeking generator -/

/-- The slope-adjusted value of an ascending state with `uint32_t` value and
slope: `value + slope`, or the maximum when that would pass it. -/
theorem FilteredNoise.slopeAdjusted_ascending (S v T : Nat) (r : LCGNoise)
    (hv : v < 4294967296) (hS : S < 4294967296) :
    (FilteredNoise.mk S r v T 1).slopeAdjusted =
      if v > 4294967295 - S then 4294967295 else v + S := by
  unfold FilteredNoise.slopeAdjusted
  show (if (0 : Int) < 1 ∧ v > 4294967295 - S then 4294967295
    else if (1 : Int) < 0 ∧ v < S then 0
    else (v + (toU32 1 * S) % 4294967296) % 4294967296) = _
  by_cases h : v > 4294967295 - S
  · rw [if_pos ⟨by decide, h⟩, if_pos h]
  · rw [if_neg (fun hh => h hh.2), if_neg (fun hh => absurd hh.1 (by decide)), if_neg h,
      toU32_one]
    omega

/-- The second draw of the generator seeded 12345, halved, is below the
first. -/
theorem second_draw_half :
    (LCGNoise.next (LCGNoise.mk 12345)).2 = 2044445496 ∧
    (LCGNoise.next (LCGNoise.mk 12345)).1.seed = 2044445496 ∧
    (LCGNoise.next (LCGNoise.mk 2044445496)).2 >>> 1 = 1421137665 := by
  refine ⟨by decide, by decide, by decide⟩

/-- Every draw is a `uint32_t`. -/
theorem LCGNoise.next_lt (r : LCGNoise) : (r.next).2 < 4294967296 := by
  unfold LCGNoise.next
  exact Nat.mod_lt _ (by norm_num)

/-- One call with any `uint32_t` slope keeps the invariant and moves the value
toward the target by at most the slope. -/
theorem FilteredNoise.step_inv (S0 S v T : Nat) (r : LCGNoise) (d : Int)
    (hinv : FilteredNoise.Inv (FilteredNoise.mk S0 r v T d)) (hS : S < 4294967296) :
    FilteredNoise.Inv ((FilteredNoise.mk S r v T d).call).1 ∧
    (d = 1 → v ≤ ((FilteredNoise.mk S r v T d).call).2 ∧
      ((FilteredNoise.mk S r v T d).call).2 ≤ T ∧
      ((FilteredNoise.mk S r v T d).call).2 - v ≤ S) ∧
    (d = -1 → T ≤ ((FilteredNoise.mk S r v T d).call).2 ∧
      ((FilteredNoise.mk S r v T d).call).2 ≤ v ∧
      v - ((FilteredNoise.mk S r v T d).call).2 ≤ S) := by
  obtain ⟨hv, hT, hcase⟩ := hinv
  have hv2 : v < 4294967296 := hv
  have hT2 : T < 4294967296 := hT
  clear hv hT
  have hrng := LCGNoise.next_lt r
  have hhalf : (r.next).2 >>> 1 < 2147483648 := by
    rw [Nat.shiftRight_eq_div_pow, pow_one]
    omega
  have hmid : FilteredNoise.max / 2 + 1 = 2 ^ 31 := by decide
  rcases hcase with ⟨hd, hvT, hphase⟩ | ⟨hd, hTv, hTlow⟩
  · have hd2 : d = 1 := hd
    subst hd2
    have hvT2 : v ≤ T := hvT
    have hphase2 : 2147483648 ≤ T ∨ (T = 2044445496 ∧ r.seed = 2044445496) := hphase
    clear hd hvT hphase
    have hadj := FilteredNoise.slopeAdjusted_ascending S v T r hv2 hS
    by_cases hreach : (if v > 4294967295 - S then 4294967295 else v + S) ≥ T
    · obtain ⟨h1, h2⟩ := FilteredNoise.call_pos (FilteredNoise.mk S r v T 1)
        (Or.inl ⟨show (0 : Int) < 1 by decide, by rw [hadj]; exact hreach⟩)
      have htgt : (if (0 : Int) < -1 then ((r.next).2 >>> 1) ||| (FilteredNoise.max / 2 + 1)
          else (r.next).2 >>> 1) = (r.next).2 >>> 1 := if_neg (by decide)
      have h1b : ((FilteredNoise.mk S r v T 1).call).1 =
          FilteredNoise.mk S (r.next).1 T ((r.next).2 >>> 1) (-1) :=
        h1.trans (congrArg (fun t => FilteredNoise.mk S (r.next).1 T t (-1)) htgt)
      have h2b : ((FilteredNoise.mk S r v T 1).call).2 = T := h2
      have hle : (r.next).2 >>> 1 ≤ T := by
        rcases hphase2 with hp | ⟨hp1, hp2⟩
        · omega
        · obtain ⟨seed⟩ := r
          have hs : seed = 2044445496 := hp2
          subst hs
          rw [second_draw_half.2.2, hp1]
          decide
      rw [h1b, h2b]
      refine ⟨⟨hT2, ?_, Or.inr ⟨rfl, hle, hhalf⟩⟩, fun _ => ⟨hvT2, le_refl T, ?_⟩,
        fun h => absurd h (by decide)⟩
      · show (r.next).2 >>> 1 < 4294967296
        omega
      · split at hreach <;> omega
    · obtain ⟨h1, h2⟩ := FilteredNoise.call_neg (FilteredNoise.mk S r v T 1)
        (by
          rintro (h | h)
          · have h3 := h.2
            rw [hadj] at h3
            exact hreach h3
          · exact absurd h.1 (show ¬ (1 : Int) < 0 by decide))
      have h1b : ((FilteredNoise.mk S r v T 1).call).1 =
          FilteredNoise.mk S r (if v > 4294967295 - S then 4294967295 else v + S) T 1 :=
        h1.trans (congrArg (fun t => FilteredNoise.mk S r t T 1) hadj)
      have h2b : ((FilteredNoise.mk S r v T 1).call).2 =
          (if v > 4294967295 - S then 4294967295 else v + S) := h2.trans hadj
      rw [h1b, h2b]
      have hlt : (if v > 4294967295 - S then 4294967295 else v + S) < T := by omega
      refine ⟨⟨?_, hT2, Or.inl ⟨rfl, ?_, hphase2⟩⟩, fun _ => ⟨?_, ?_, ?_⟩,
        fun h => absurd h (by decide)⟩
      · show (if v > 4294967295 - S then 4294967295 else v + S) < 4294967296
        omega
      · show (if v > 4294967295 - S then 4294967295 else v + S) ≤ T
        omega
      · split <;> omega
      · omega
      · split <;> omega
  · have hd2 : d = -1 := hd
    subst hd2
    have hTv2 : T ≤ v := hTv
    have hTlow2 : T < 2147483648 := hTlow
    clear hd hTv hTlow
    have hadj := FilteredNoise.slopeAdjusted_descending S v T r hv2
    by_cases hreach : v - S ≤ T
    · obtain ⟨h1, h2⟩ := FilteredNoise.call_pos (FilteredNoise.mk S r v T (-1))
        (Or.inr ⟨show (-1 : Int) < 0 by decide, by rw [hadj]; exact hreach⟩)
      have htgt : (if (0 : Int) < - -1 then ((r.next).2 >>> 1) ||| (FilteredNoise.max / 2 + 1)
          else (r.next).2 >>> 1) = ((r.next).2 >>> 1) ||| 2 ^ 31 := by
        rw [if_pos (by decide), hmid]
      have h1b : ((FilteredNoise.mk S r v T (-1)).call).1 =
          FilteredNoise.mk S (r.next).1 T (((r.next).2 >>> 1) ||| 2 ^ 31) 1 :=
        h1.trans (congrArg (fun t => FilteredNoise.mk S (r.next).1 T t 1) htgt)
      have h2b : ((FilteredNoise.mk S r v T (-1)).call).2 = T := h2
      have hge : 2 ^ 31 ≤ ((r.next).2 >>> 1) ||| 2 ^ 31 := two_pow_le_or _
      have hlt32 : ((r.next).2 >>> 1) ||| 2 ^ 31 < 2 ^ 32 :=
        Nat.or_lt_two_pow (by norm_num; omega) (by norm_num)
      rw [h1b, h2b]
      generalize ((r.next).2 >>> 1) ||| 2 ^ 31 = tgt at hge hlt32 ⊢
      norm_num at hge hlt32
      refine ⟨⟨hT2, hlt32, Or.inl ⟨rfl, ?_, Or.inl hge⟩⟩, fun h => absurd h (by decide),
        fun _ => ⟨le_refl T, hTv2, by omega⟩⟩
      show T ≤ tgt
      omega
    · obtain ⟨h1, h2⟩ := FilteredNoise.call_neg (FilteredNoise.mk S r v T (-1))
        (by
          rintro (h | h)
          · exact absurd h.1 (show ¬ (0 : Int) < -1 by decide)
          · have h3 := h.2
            rw [hadj] at h3
            exact hreach h3)
      have h1b : ((FilteredNoise.mk S r v T (-1)).call).1 =
          FilteredNoise.mk S r (v - S) T (-1) :=
        h1.trans (congrArg (fun t => FilteredNoise.mk S r t T (-1)) hadj)
      have h2b : ((FilteredNoise.mk S r v T (-1)).call).2 = v - S := h2.trans hadj
      rw [h1b, h2b]
      refine ⟨⟨?_, hT2, Or.inr ⟨rfl, ?_, hTlow2⟩⟩, fun h => absurd h (by decide),
        fun _ => ⟨by omega, by omega, by omega⟩⟩
      · show v - S < 4294967296
        omega
      · show T ≤ v - S
        omega

/-- The constructed state satisfies the invariant. -/
theorem FilteredNoise.init_inv {F : Type} (fl : FloatOps F) :
    FilteredNoise.Inv (FilteredNoise.init fl) := by
  refine ⟨?_, ?_, Or.inl ⟨rfl, ?_, Or.inr ⟨second_draw_half.1, second_draw_half.2.1⟩⟩⟩
  · show (0 : Nat) < 4294967296
    decide
  · show (LCGNoise.next (LCGNoise.mk 12345)).2 < 4294967296
    exact LCGNoise.next_lt _
  · show (0 : Nat) ≤ (LCGNoise.next (LCGNoise.mk 12345)).2
    exact Nat.zero_le _

/-- Calls with `uint32_t` slopes keep the invariant. -/
theorem FilteredNoise.runSlopes_inv (slopes : List Nat) (s : FilteredNoise)
    (hinv : FilteredNoise.Inv s) (hs : ∀ x ∈ slopes, x < 4294967296) :
    FilteredNoise.Inv (FilteredNoise.runSlopes s slopes) := by
  induction slopes generalizing s with
  | nil => exact hinv
  | cons S rest ih =>
    obtain ⟨S0, r, v, T, d⟩ := s
    show FilteredNoise.Inv
      (FilteredNoise.runSlopes ((FilteredNoise.mk S r v T d).call).1 rest)
    exact ih _ (FilteredNoise.step_inv S0 S v T r d hinv (hs S (List.mem_cons_self S rest))).1
      (fun x hx => hs x (List.mem_cons_of_mem S hx))

/-- C16: let `s` be reached from the constructed state (value 0, direction +1,
target the first draw of the LCG seeded 12345) by any sequence of calls, the
slope set to any `uint32_t` value before each call.  Then the direction of `s`
is +1 or -1, direction +1 implies `value ≤ target` and direction -1 implies
`value ≥ target`, and the value `v'` returned by one more call with any
`uint32_t` slope satisfies `v ≤ v' ≤ target` and `v' - v ≤ slope` when the
direction was +1, and `target ≤ v' ≤ v` and `v - v' ≤ slope` when it
was -1. -/
theorem FilteredNoise_reachable_monotone {F : Type} (fl : FloatOps F) (slopes : List Nat)
    (S : Nat) (s : FilteredNoise)
    (hreach : s = FilteredNoise.runSlopes (FilteredNoise.init fl) slopes)
    (hs : ∀ x ∈ slopes, x < 2 ^ 32) (hS : S < 2 ^ 32) :
    (s.direction = 1 ∨ s.direction = -1) ∧
    (s.direction = 1 → s.value ≤ s.target) ∧
    (s.direction = -1 → s.target ≤ s.value) ∧
    (s.direction = 1 →
      s.value ≤ (FilteredNoise.call { s with slope := S }).2 ∧
      (FilteredNoise.call { s with slope := S }).2 ≤ s.target ∧
      (FilteredNoise.call { s with slope := S }).2 - s.value ≤ S) ∧
    (s.direction = -1 →
      s.target ≤ (FilteredNoise.call { s with slope := S }).2 ∧
      (FilteredNoise.call { s with slope := S }).2 ≤ s.value ∧
      s.value - (FilteredNoise.call { s with slope := S }).2 ≤ S) := by
  have hs2 : ∀ x ∈ slopes, x < 4294967296 := by
    intro x hx
    have := hs x hx
    norm_num at this
    exact this
  have hS2 : S < 4294967296 := by norm_num at hS; exact hS
  have hinv : FilteredNoise.Inv s := by
    rw [hreach]
    exact FilteredNoise.runSlopes_inv slopes _ (FilteredNoise.init_inv fl) hs2
  obtain ⟨S0, r, v, T, d⟩ := s
  have hstep := FilteredNoise.step_inv S0 S v T r d hinv hS2
  obtain ⟨-, -, hcase⟩ := hinv
  refine ⟨?_, ?_, ?_, hstep.2.1, hstep.2.2⟩
  · rcases hcase with h | h
    · exact Or.inl h.1
    · exact Or.inr h.1
  · intro hd
    rcases hcase with h | h
    · exact h.2.1
    · have h1 : d = -1 := h.1
      have h2 : d = 1 := hd
      omega
  · intro hd
    rcases hcase with h | h
    · have h1 : d = 1 := h.1
      have h2 : d = -1 := hd
      omega
    · exact h.2.1

/-- Witness of `FilteredNoise_reachable_monotone`: after calls with slopes
4000000000 and 1 the direction is +1 or -1. -/
theorem FilteredNoise_reachable_monotone_witness :
    (FilteredNoise.runSlopes (FilteredNoise.init ratOps) [4000000000, 1]).direction = 1 ∨
    (FilteredNoise.runSlopes (FilteredNoise.init ratOps) [4000000000, 1]).direction = -1 :=
  (FilteredNoise_reachable_monotone ratOps [4000000000, 1] 7
    (FilteredNoise.runSlopes (FilteredNoise.init ratOps) [4000000000, 1]) rfl
    (by decide) (by decide)).1

/-! ### The window of the average filter -/

/-- Moving a cursor below `n` by a nonzero amount below `n` changes it. -/
theorem add_mod_ne_self (i j n : Nat) (hi : i < n) (hj0 : 0 < j) (hj : j < n) :
    (i + j) % n ≠ i := by
  by_cases h : i + j < n
  · rw [Nat.mod_eq_of_lt h]
    omega
  · rw [Nat.mod_eq_sub_mod (by omega), Nat.mod_eq_of_lt (by omega)]
    omega

/-- The cyclic reading order is a rearrangement of the slot numbers. -/
theorem range_rotation_perm (i n : Nat) :
    List.Perm ((List.range n).map (fun k => (i + k) % n)) (List.range n) := by
  have e : (List.range n).map (fun k => (i + k) % n) = (List.range n).rotate i := by
    apply List.ext_getElem
    · rw [List.length_map, List.length_rotate]
    · intro k h1 h2
      rw [List.getElem_map, List.getElem_rotate, List.getElem_range, List.getElem_range,
        List.length_range, Nat.add_comm]
  rw [e]
  exact List.rotate_perm _ _

/-- The first `size` slots are a rearrangement of the window. -/
theorem AverageBufferFilter.slots_perm_window (s : AverageBufferFilter) :
    List.Perm ((List.range s.size).map s.buffer) s.window := by
  have e : s.window =
      ((List.range s.size).map (fun k => (s.index + k) % s.size)).map s.buffer := by
    unfold AverageBufferFilter.window
    rw [List.map_map]
    rfl
  rw [e]
  exact ((range_rotation_perm s.index s.size).map s.buffer).symm

/-- One write drops the oldest entry of the window and appends the input. -/
theorem AverageBufferFilter.window_write (mx n i v : Nat) (buf : Nat → Nat) (hn : 1 ≤ n)
    (hi : i < n) :
    (AverageBufferFilter.mk mx n ((i + 1) % n) (fun j => if j = i then v else buf j)).window =
      ((AverageBufferFilter.mk mx n i buf).window ++ [v]).drop 1 := by
  obtain ⟨m, rfl⟩ : ∃ m, n = m + 1 := ⟨n - 1, by omega⟩
  unfold AverageBufferFilter.window
  show (List.range (m + 1)).map
      (fun k => (fun j => if j = i then v else buf j) (((i + 1) % (m + 1) + k) % (m + 1))) =
    ((List.range (m + 1)).map (fun k => buf ((i + k) % (m + 1))) ++ [v]).drop 1
  conv_lhs => rw [List.range_succ]
  conv_rhs => rw [List.range_succ_eq_map]
  rw [List.map_append, List.map_singleton, List.map_cons, List.cons_append,
    List.drop_succ_cons, List.drop_zero, List.map_map]
  have hlast : (fun j => if j = i then v else buf j) (((i + 1) % (m + 1) + m) % (m + 1)) = v := by
    have : ((i + 1) % (m + 1) + m) % (m + 1) = i := by
      rw [Nat.mod_add_mod]
      have : i + 1 + m = i + (m + 1) := by omega
      rw [this, Nat.add_mod_right, Nat.mod_eq_of_lt hi]
    show (if ((i + 1) % (m + 1) + m) % (m + 1) = i then v else _) = v
    rw [if_pos this]
  have hinit : (List.range m).map
      (fun k => (fun j => if j = i then v else buf j) (((i + 1) % (m + 1) + k) % (m + 1))) =
      (List.range m).map ((fun k => buf ((i + k) % (m + 1))) ∘ Nat.succ) := by
    apply List.map_congr_left
    intro k hk
    have hk2 : k < m := List.mem_range.mp hk
    have e1 : ((i + 1) % (m + 1) + k) % (m + 1) = (i + (k + 1)) % (m + 1) := by
      rw [Nat.mod_add_mod]
      have : i + 1 + k = i + (k + 1) := by omega
      rw [this]
    have e2 : (i + (k + 1)) % (m + 1) ≠ i :=
      add_mod_ne_self i (k + 1) (m + 1) hi (by omega) (by omega)
    show (if ((i + 1) % (m + 1) + k) % (m + 1) = i then v else
      buf (((i + 1) % (m + 1) + k) % (m + 1))) = buf ((i + (k + 1)) % (m + 1))
    rw [e1, if_neg e2]
  rw [hlast, hinit]

/-- Consecutive calls with the cursor inside the window are all defined, keep
the window size, and slide the window over the inputs; the last returned value
is the average of the final state. -/
theorem AverageBufferFilter.calls_window (xs : List Nat) (s : AverageBufferFilter)
    (h1 : 1 ≤ s.size) (h2 : s.size ≤ 128) (hi : s.index < s.size) :
    ∃ s2 rs, s.calls xs = some (s2, rs) ∧ rs.length = xs.length ∧ s2.size = s.size ∧
      s2.window = (s.window ++ xs).drop xs.length ∧
      (xs ≠ [] → rs.getLast? = some s2.buffer_average) := by
  induction xs generalizing s with
  | nil =>
    refine ⟨s, [], rfl, rfl, rfl, ?_, fun h => absurd rfl h⟩
    rw [List.append_nil, List.length_nil, List.drop_zero]
  | cons x xs ih =>
    obtain ⟨mx, n, i, buf⟩ := s
    have hn : 1 ≤ n := h1
    have hn2 : n ≤ 128 := h2
    have hin : i < n := hi
    have hcall := AverageBufferFilter.call_eq (AverageBufferFilter.mk mx n i buf) x hn hn2
      (lt_of_lt_of_le hin hn2)
    have hcall2 : (AverageBufferFilter.mk mx n i buf).call x =
        some (AverageBufferFilter.mk mx n ((i + 1) % n) (fun j => if j = i then x else buf j),
          AverageBufferFilter.buffer_average
            (AverageBufferFilter.mk mx n ((i + 1) % n)
              (fun j => if j = i then x else buf j))) := hcall
    obtain ⟨s2, rs, hcalls, hlen, hsize, hwin, hlast⟩ :=
      ih (AverageBufferFilter.mk mx n ((i + 1) % n) (fun j => if j = i then x else buf j))
        hn hn2 (Nat.mod_lt _ hn)
    have hsize2 : s2.size = n := hsize
    have hwlen : (AverageBufferFilter.mk mx n i buf).window.length = n := by
      unfold AverageBufferFilter.window
      rw [List.length_map, List.length_range]
    refine ⟨s2, AverageBufferFilter.buffer_average
        (AverageBufferFilter.mk mx n ((i + 1) % n) (fun j => if j = i then x else buf j)) :: rs,
      ?_, ?_, hsize2, ?_, fun _ => ?_⟩
    · show (match (AverageBufferFilter.mk mx n i buf).call x with
        | none => none
        | some (s1, r) =>
          match AverageBufferFilter.calls s1 xs with
          | none => none
          | some (s2, rs) => some (s2, r :: rs)) = _
      rw [hcall2]
      simp only [hcalls]
    · rw [List.length_cons, List.length_cons, hlen]
    · rw [hwin, AverageBufferFilter.window_write mx n i x buf hn hin,
        ← List.drop_append_of_le_length (by rw [List.length_append, hwlen]; omega),
        List.drop_drop, List.append_assoc, List.singleton_append, List.length_cons,
        Nat.add_comm 1]
    · cases xs with
      | nil =>
        have hnil : rs = [] := List.length_eq_zero.mp hlen
        have hs2 : s2 = AverageBufferFilter.mk mx n ((i + 1) % n)
            (fun j => if j = i then x else buf j) := by
          have h := hcalls
          rw [show AverageBufferFilter.calls
            (AverageBufferFilter.mk mx n ((i + 1) % n) (fun j => if j = i then x else buf j))
            [] = some (AverageBufferFilter.mk mx n ((i + 1) % n)
              (fun j => if j = i then x else buf j), []) from rfl] at h
          exact (Prod.mk.inj (Option.some.inj h)).1.symm
        rw [hnil, hs2]
        rfl
      | cons y ys =>
        rw [List.getLast?_cons, hlast (List.cons_ne_nil y ys)]
        rfl

/-- C19: with the window size `n` in [1,128] held constant and the write
cursor initially below `n`, after `m ≥ n` consecutive calls with `uint32_t`
inputs every call was defined, the first `n` slots hold exactly the `n` most
recent inputs (as a rearrangement, each once), and the value returned by the
last call is the sum of `x / n` over the `n` most recent inputs, whatever the
older inputs and the prior buffer contents were. -/
theorem AverageBufferFilter_window_recent (s : AverageBufferFilter) (xs : List Nat)
    (h1 : 1 ≤ s.size) (h2 : s.size ≤ 128) (hi : s.index < s.size)
    (hx : ∀ x ∈ xs, x < 2 ^ 32) (hm : s.size ≤ xs.length) :
    ∃ s2 rs, s.calls xs = some (s2, rs) ∧ rs.length = xs.length ∧
      List.Perm ((List.range s.size).map s2.buffer) (xs.drop (xs.length - s.size)) ∧
      rs.getLast? =
        some (((xs.drop (xs.length - s.size)).map (fun x => x / s.size)).sum) := by
  obtain ⟨s2, rs, hcalls, hlen, hsize, hwin, hlast⟩ :=
    AverageBufferFilter.calls_window xs s h1 h2 hi
  have hwlen : s.window.length = s.size := by
    unfold AverageBufferFilter.window
    rw [List.length_map, List.length_range]
  have hrecent : s2.window = xs.drop (xs.length - s.size) := by
    rw [hwin, List.drop_append_eq_append_drop, List.drop_eq_nil_of_le (by omega),
      List.nil_append, hwlen]
  have hperm : List.Perm ((List.range s.size).map s2.buffer) (xs.drop (xs.length - s.size)) := by
    rw [← hrecent, ← hsize]
    exact AverageBufferFilter.slots_perm_window s2
  have hne : xs ≠ [] := by
    intro h
    rw [h] at hm
    have : s.size ≤ 0 := hm
    omega
  have hslots : ∀ i, i < s2.size → s2.buffer i < 4294967296 := by
    intro i hlt
    have hmem : s2.buffer i ∈ (List.range s.size).map s2.buffer :=
      List.mem_map.mpr ⟨i, List.mem_range.mpr (hsize ▸ hlt), rfl⟩
    have hmem2 := List.mem_of_mem_drop (hperm.mem_iff.mp hmem)
    have := hx _ hmem2
    norm_num at this
    exact this
  have havg : s2.buffer_average =
      ((xs.drop (xs.length - s.size)).map (fun x => x / s.size)).sum := by
    unfold AverageBufferFilter.buffer_average
    rw [average_loop_eq s2.buffer s2.size hslots, hsize]
    have hp := (hperm.map (fun x => x / s.size)).sum_eq
    rw [List.map_map] at hp
    exact hp
  exact ⟨s2, rs, hcalls, hlen, hperm, by rw [hlast hne, havg]⟩

/-- Witness of `AverageBufferFilter_window_recent`: size 3, cursor 1, prior
slots 100, 101, 102 and inputs 10, 20, 30, 40, 50; the last returned value is
`30/3 + 40/3 + 50/3 = 39`. -/
theorem AverageBufferFilter_window_recent_witness :
    ∃ s2 rs, (AverageBufferFilter.mk 128 3 1 (fun i => 100 + i)).calls [10, 20, 30, 40, 50] =
        some (s2, rs) ∧
      rs.getLast? = some 39 :=
  (AverageBufferFilter_window_recent (AverageBufferFilter.mk 128 3 1 (fun i => 100 + i))
    [10, 20, 30, 40, 50] (by decide) (by decide) (by decide) (by decide) (by decide)).elim
    (fun s2 h => h.elim (fun rs hr => ⟨s2, rs, hr.1, hr.2.2.2.trans (by decide)⟩))

end NoiseApplet

namespace ClockDividerApplet

/-- The clamped index lies in `0 .. 16`. -/
theorem constrain_range (dv : Int) : 0 ≤ constrain dv 0 16 ∧ constrain dv 0 16 ≤ 16 := by
  unfold constrain
  split
  · constructor <;> decide
  · split
    · constructor <;> decide
    · constructor <;> omega

/-- Every table entry at an index in `0 .. 16` exists and is a nonzero value
of the table. -/
theorem divisions_entry (i : Int) (h0 : 0 ≤ i) (h16 : i ≤ 16) :
    ∃ d, divisions.get? i.toNat = some d ∧ d ≠ 0 ∧
      ((-8 ≤ d ∧ d ≤ -2) ∨ (1 ≤ d ∧ d ≤ 8) ∨ d = 16 ∨ d = 32) := by
  obtain ⟨n, rfl⟩ := Int.eq_ofNat_of_zero_le h0
  have hn : n ≤ 16 := by omega
  interval_cases n <;> exact ⟨_, rfl, by decide, by decide⟩

/-- C20: for every channel and all values of `div[ch]` and `cv[ch]`,
`GetDivisionFor` reads the table at `constrain(div[ch] + cv[ch], 0, 16)`, an
index inside the 17-entry table, and returns a nonzero entry (one of -8 .. -2
or 1 .. 8, 16, 32), so `cycle_time / abs(GetDivisionFor(ch))` never divides by
zero. -/
theorem GetDivisionFor_in_table_nonzero (s : ClockDivider) (ch : Nat) :
    s.divisionIndex ch = constrain (s.div ch + s.cv ch) 0 16 ∧
    0 ≤ s.divisionIndex ch ∧ s.divisionIndex ch ≤ 16 ∧
    (s.divisionIndex ch).toNat < divisions.length ∧ divisions.length = 17 ∧
    ∃ d, s.GetDivisionFor ch = some d ∧ d ≠ 0 ∧
      ((-8 ≤ d ∧ d ≤ -2) ∨ (1 ≤ d ∧ d ≤ 8) ∨ d = 16 ∨ d = 32) ∧
      |d| ≠ 0 ∧ s.clock_every ch = some (Int.tdiv s.cycle_time |d|) := by
  have hidx : s.divisionIndex ch = constrain (s.div ch + s.cv ch) 0 16 := rfl
  have hr := constrain_range (s.div ch + s.cv ch)
  rw [← hidx] at hr
  obtain ⟨d, hd, hne, hset⟩ := divisions_entry (s.divisionIndex ch) hr.1 hr.2
  have hget : s.GetDivisionFor ch = some d := by
    unfold ClockDivider.GetDivisionFor
    rw [if_pos hr.1]
    exact hd
  have habs : |d| ≠ 0 := abs_ne_zero.mpr hne
  refine ⟨hidx, hr.1, hr.2, ?_, rfl, d, hget, hne, hset, habs, ?_⟩
  · have : divisions.length = 17 := rfl
    rw [this]
    omega
  · unfold ClockDivider.clock_every
    simp only [hget]
    rw [if_neg habs]

end ClockDividerApplet
